import Mathlib

/-!
Verification of the tabular-data transformation pipeline of this repository
(Excel ingestion, header detection, column type inference, sanitization,
filtering, preset storage) against its natural-language specification.

The embedding models JavaScript strings as `List Char`, JavaScript numbers
occurring in cells as integers (`Int`; float-only corner cases are outside
every property below), and exact real arithmetic (`ℚ`) for the percentage
computations that the source performs in IEEE doubles. All definitions are
transliterated from the TypeScript sources:
  - src/pages/TransformationPage.tsx
  - src/lib/transformers/ExcelTransformer.ts
  - src/lib/sanitizers/DataSanitizers.ts
  - src/components/DataPreview.tsx
-/

/-- JS `\s` / `String.prototype.trim` whitespace (the WhiteSpace and
LineTerminator code points of ECMAScript). -/
def isSpaceChar (c : Char) : Bool :=
  let n := c.toNat
  (9 ≤ n && n ≤ 13) || n = 32 || n = 160 || n = 0x1680 ||
  (0x2000 ≤ n && n ≤ 0x200a) || n = 0x2028 || n = 0x2029 ||
  n = 0x202f || n = 0x205f || n = 0x3000 || n = 0xfeff

/-- ASCII digit, the JS regex class `\d`. -/
def isDigitChar (c : Char) : Bool :=
  48 ≤ c.toNat && c.toNat ≤ 57

/-- ASCII letter (`[a-zA-Z]`). -/
def isAsciiAlpha (c : Char) : Bool :=
  (65 ≤ c.toNat && c.toNat ≤ 90) || (97 ≤ c.toNat && c.toNat ≤ 122)

/-- ASCII alphanumeric (`[a-zA-Z0-9]`). -/
def isAlnumChar (c : Char) : Bool :=
  isAsciiAlpha c || isDigitChar c

/-- The JS regex class `\w` (`[A-Za-z0-9_]`). -/
def isWordChar (c : Char) : Bool :=
  isAlnumChar c || c = '_'

/-- `String.prototype.trim`. -/
def jsTrim (s : List Char) : List Char :=
  ((s.dropWhile isSpaceChar).reverse.dropWhile isSpaceChar).reverse

/-- `String.prototype.padStart(n, c)`. -/
def padStartList (n : Nat) (c : Char) (s : List Char) : List Char :=
  List.replicate (n - s.length) c ++ s

/-- `String.prototype.padEnd(n, c)`. -/
def padEndList (n : Nat) (c : Char) (s : List Char) : List Char :=
  s ++ List.replicate (n - s.length) c

/-- Is `pat` a contiguous substring of `s` (JS `String.prototype.includes`)? -/
def containsSub (s pat : List Char) : Bool :=
  match s with
  | [] => pat.isEmpty
  | _ :: rest => pat.isPrefixOf s || containsSub rest pat

/-- Split a list at every occurrence of character `sep`
(JS `String.prototype.split(sep)` for a single-character separator). -/
def splitAtChar (sep : Char) (s : List Char) : List (List Char) :=
  match s with
  | [] => [[]]
  | c :: rest =>
    let r := splitAtChar sep rest
    if c = sep then [] :: r
    else match r with
      | [] => [[c]]
      | h :: t => (c :: h) :: t

/-- A primitive spreadsheet cell as delivered by the (external) workbook
codec with `defval: ""`: a string, a number, or a boolean. Numbers are
modelled as integers; no property below depends on fractional values. -/
inductive Cell where
  | str (s : List Char)
  | num (n : Int)
  | boolv (b : Bool)
deriving DecidableEq, Repr, Inhabited

/-- JS truthiness of a cell value (`if (cell)`). -/
def truthyCell : Cell → Bool
  | .str s => !s.isEmpty
  | .num n => n ≠ 0
  | .boolv b => b

/-- JS `cell !== ""` (a number or boolean is never equal to the empty string). -/
def cellNonEmpty : Cell → Bool
  | .str s => !s.isEmpty
  | _ => true

/-- `typeof cell === "string" && cell !== ""`. -/
def isNonEmptyStringCell : Cell → Bool
  | .str s => !s.isEmpty
  | _ => false

/-- `typeof cell === "number"`. -/
def isNumberCell : Cell → Bool
  | .num _ => true
  | _ => false

/-- JS `String(cell)` for the cell primitives we model
(integer number printing agrees with JS). -/
def jsToStringCell : Cell → List Char
  | .str s => s
  | .num n => (toString n).toList
  | .boolv b => (if b then "true" else "false").toList

/-! ### Pattern matchers

The JS regexes of `detectColumnType` and the sanitize pass
(TransformationPage.tsx), embedded as decidable functions on `List Char`.
Anchored regexes become whole-string matchers; the nondeterministic pieces
(bounded repetition, optional groups) use a small list-of-remainders
matcher. -/

/-- Consume one character satisfying `p`; result is the list of possible
remainders (empty = no match). -/
def pchar (p : Char → Bool) (s : List Char) : List (List Char) :=
  match s with
  | c :: rest => if p c then [rest] else []
  | [] => []

/-- Sequencing of nondeterministic matchers. -/
def pseq (f g : List Char → List (List Char)) (s : List Char) :
    List (List Char) :=
  (f s).flatMap g

/-- `f?`: zero or one occurrence. -/
def popt (f : List Char → List (List Char)) (s : List Char) :
    List (List Char) :=
  s :: f s

/-- `p{n}`: exactly `n` characters of class `p`. -/
def pexact (p : Char → Bool) : Nat → List Char → List (List Char)
  | 0, s => [s]
  | n + 1, s => (pchar p s).flatMap (pexact p n)

/-- `p{lo,hi}`: between `lo` and `hi` characters of class `p`. -/
def prange (p : Char → Bool) (lo hi : Nat) (s : List Char) :
    List (List Char) :=
  (List.range (hi + 1 - lo)).flatMap (fun k => pexact p (lo + k) s)

/-- The separator class `[\s.-]` of the phone regex. -/
def phoneSepClass (c : Char) : Bool :=
  isSpaceChar c || c = '.' || c = '-'

/-- `^(\+\d{1,3}[\s.-]?)?\(?\d{3}\)?[\s.-]?\d{3}[\s.-]?\d{4}$`
(the phone pattern of `detectColumnType` and the auto-sanitize path). -/
def phoneShape (s : List Char) : Bool :=
  let country := pseq (pchar (· = '+'))
    (pseq (prange isDigitChar 1 3) (popt (pchar phoneSepClass)))
  let rest := pseq (popt (pchar (· = '(')))
    (pseq (pexact isDigitChar 3)
      (pseq (popt (pchar (· = ')')))
        (pseq (popt (pchar phoneSepClass))
          (pseq (pexact isDigitChar 3)
            (pseq (popt (pchar phoneSepClass)) (pexact isDigitChar 4))))))
  (pseq (popt country) rest s).any (·.isEmpty)

/-- `^\d{5}(-\d{4})?$` (the zipcode pattern). -/
def zipShape (s : List Char) : Bool :=
  (s.length == 5 && s.all isDigitChar) ||
  (s.length == 10 && (s.take 5).all isDigitChar && s.getD 5 ' ' == '-' &&
    (s.drop 6).all isDigitChar)

/-- `^(\d{5})-\d{4}$` (the extended-zip pattern of the global
sanitize-ZIP-codes pass). -/
def zipExtShape (s : List Char) : Bool :=
  s.length == 10 && (s.take 5).all isDigitChar && s.getD 5 ' ' == '-' &&
    (s.drop 6).all isDigitChar

/-- `^\d{3}-\d{2}-\d{4}$` (the ssn pattern). -/
def ssnShape (s : List Char) : Bool :=
  s.length == 11 && (s.take 3).all isDigitChar && s.getD 3 ' ' == '-' &&
    ((s.drop 4).take 2).all isDigitChar && s.getD 6 ' ' == '-' &&
    (s.drop 7).all isDigitChar

/-- `^-?\d+(\.\d+)?$` (the plain-number pattern). -/
def numberShape (s : List Char) : Bool :=
  let body := match s with
    | '-' :: rest => rest
    | _ => s
  match splitAtChar '.' body with
  | [a] => !a.isEmpty && a.all isDigitChar
  | [a, b] => !a.isEmpty && a.all isDigitChar && !b.isEmpty &&
      b.all isDigitChar
  | _ => false

/-- The local-part class `[a-zA-Z0-9._%+-]` of the email regex. -/
def emailLocalClass (c : Char) : Bool :=
  isAlnumChar c || c = '.' || c = '_' || c = '%' || c = '+' || c = '-'

/-- The domain class `[a-zA-Z0-9.-]` of the email regex. -/
def emailDomClass (c : Char) : Bool :=
  isAlnumChar c || c = '.' || c = '-'

/-- `^[a-zA-Z0-9._%+-]+@[a-zA-Z0-9.-]+\.[a-zA-Z]{2,}$` (the email pattern).
Since `@` belongs to neither class, a match forces exactly one `@`. The
final dot is chosen existentially over positions of the domain part. -/
def emailShape (s : List Char) : Bool :=
  match splitAtChar '@' s with
  | [a, b] =>
    !a.isEmpty && a.all emailLocalClass &&
    (List.range b.length).any (fun i =>
      b.getD i ' ' == '.' && decide (1 ≤ i) && (b.take i).all emailDomClass &&
      decide (2 ≤ (b.drop (i + 1)).length) &&
      (b.drop (i + 1)).all isAsciiAlpha)
  | _ => false

/-- The currency-symbol class `[£$€¥]`. -/
def currencySymClass (c : Char) : Bool :=
  c = '£' || c = '$' || c = '€' || c = '¥'

/-- The numeric-body class `[\d,.]`. -/
def currencyNumClass (c : Char) : Bool :=
  isDigitChar c || c = ',' || c = '.'

/-- `[\d,.]+\s*$`: a nonempty numeric body followed by whitespace only.
Deterministic maximal-run scanning is equivalent since the classes are
disjoint and nothing may follow the trailing whitespace. -/
def currencyTail (s : List Char) : Bool :=
  !(s.takeWhile currencyNumClass).isEmpty &&
  (s.dropWhile currencyNumClass).all isSpaceChar

/-- `^\s*[£$€¥]?\s*[\d,.]+\s*$` (the currency pattern of
`detectColumnType`: the symbol is optional). -/
def currencyInferShape (s : List Char) : Bool :=
  let s1 := s.dropWhile isSpaceChar
  match s1 with
  | c :: rest =>
    if currencySymClass c then currencyTail (rest.dropWhile isSpaceChar)
    else currencyTail s1
  | [] => false

/-- `^\s*[£$€¥]\s*[\d,.]+\s*$` (the auto-sanitize currency pattern: the
symbol is required). -/
def currencyAutoShape (s : List Char) : Bool :=
  let s1 := s.dropWhile isSpaceChar
  match s1 with
  | c :: rest => currencySymClass c && currencyTail (rest.dropWhile isSpaceChar)
  | [] => false

/-- The date-separator class: hyphen, slash or dot. -/
def dateSepClass (c : Char) : Bool :=
  c = '-' || c = '/' || c = '.'

/-- First alternative of the date pattern: 1-4 digits, a separator,
1-2 digits, a separator, 1-4 digits. -/
def dateAltA : List Char → List (List Char) :=
  pseq (prange isDigitChar 1 4)
    (pseq (pchar dateSepClass)
      (pseq (prange isDigitChar 1 2)
        (pseq (pchar dateSepClass) (prange isDigitChar 1 4))))

/-- Second alternative of the date pattern: 1-2 digits, a separator,
1-2 digits, a separator, 2-4 digits. -/
def dateAltB : List Char → List (List Char) :=
  pseq (prange isDigitChar 1 2)
    (pseq (pchar dateSepClass)
      (pseq (prange isDigitChar 1 2)
        (pseq (pchar dateSepClass) (prange isDigitChar 2 4))))

/-- The `regex.test` semantics of the date pattern: an alternation of
`dateAltA` and `dateAltB`. The alternation binds loosest, so the first alternative is anchored only at
the start (a prefix match suffices) and the second only at the end (a
suffix match suffices). -/
def dateTestJs (s : List Char) : Bool :=
  !(dateAltA s).isEmpty ||
  (List.range (s.length + 1)).any (fun i =>
    (dateAltB (s.drop i)).any (·.isEmpty))

/-! ### Column type inference (`detectColumnType`, TransformationPage.tsx) -/

/-- The semantic column types of the UI (`ColumnType` in DataPreview.tsx). -/
inductive ColumnType where
  | auto | text | number | date | zipcode | phone | email | currency | ssn
deriving DecidableEq, Repr

/-- The sample taken by `detectColumnType`: the truthy values whose trim is
nonempty (the `typeof v === "string"` conjunct is vacuous on a string
array), capped at 100. -/
def detectSample (columnValues : List (List Char)) : List (List Char) :=
  (columnValues.filter (fun v => !v.isEmpty && !(jsTrim v).isEmpty)).take 100

/-- `(m / n) * 100`, the percentage computation of the source, in exact
rational arithmetic. -/
def pctOfQ (m n : Nat) : ℚ :=
  ((m : ℚ) / (n : ℚ)) * 100

/-- `detectColumnType` (TransformationPage.tsx): counts matches of seven
patterns over the sample and returns the first type whose percentage
reaches the 60 threshold, in the source's order of `if` statements. -/
def detectColumnType (columnValues : List (List Char)) : ColumnType :=
  if columnValues.isEmpty then .auto
  else
    let sample := detectSample columnValues
    if sample.isEmpty then .auto
    else
      let total := sample.length
      let zipPercent := pctOfQ (sample.countP zipShape) total
      let phonePercent := pctOfQ (sample.countP phoneShape) total
      let emailPercent := pctOfQ (sample.countP emailShape) total
      let currencyPercent := pctOfQ (sample.countP currencyInferShape) total
      let ssnPercent := pctOfQ (sample.countP ssnShape) total
      let datePercent := pctOfQ (sample.countP dateTestJs) total
      let numberPercent := pctOfQ (sample.countP numberShape) total
      if 60 ≤ emailPercent then .email
      else if 60 ≤ zipPercent then .zipcode
      else if 60 ≤ phonePercent then .phone
      else if 60 ≤ ssnPercent then .ssn
      else if 60 ≤ currencyPercent then .currency
      else if 60 ≤ datePercent then .date
      else if 60 ≤ numberPercent then .number
      else .text

/-- The spec's priority order: email, zipcode, phone, ssn, currency, date,
plain number approximately as written, paired with each type's pattern. -/
def typePriority : List (ColumnType × (List Char → Bool)) :=
  [(.email, emailShape), (.zipcode, zipShape), (.phone, phoneShape),
   (.ssn, ssnShape), (.currency, currencyInferShape), (.date, dateTestJs),
   (.number, numberShape)]

/-- Type inference as the spec words it: take up to 100 non-empty values,
return the first type of the priority list whose match-rate over the
sample is at least 60% (`5 * matches ≥ 3 * sample size`), `text` when none
qualifies, `auto` on an empty sample. -/
def specInferType (columnValues : List (List Char)) : ColumnType :=
  if columnValues.isEmpty then .auto
  else
    let sample := detectSample columnValues
    if sample.isEmpty then .auto
    else
      match typePriority.find?
          (fun tp => decide (3 * sample.length ≤ 5 * sample.countP tp.2)) with
      | some tp => tp.1
      | none => .text

theorem pct_ge_sixty_iff (m n : Nat) (hn : 0 < n) :
    (60 ≤ pctOfQ m n) ↔ (3 * n ≤ 5 * m) := by
  unfold pctOfQ
  rw [div_mul_eq_mul_div, le_div_iff₀ (by exact_mod_cast hn)]
  constructor
  · intro h
    have h' : 60 * n ≤ m * 100 := by exact_mod_cast h
    omega
  · intro h
    have h' : 60 * n ≤ m * 100 := by omega
    exact_mod_cast h'

/-- C1: for every column value sample, type inference takes up to 100
non-empty string values and tests them against the patterns in priority
order email, zipcode, phone, ssn, currency, date, plain number, returning
the first type whose match-rate over the sample is at least 60%; `text`
when no type clears 60%, `auto` on an empty sample. In particular
`["12345","90210","10001-1234"]` is inferred as `zipcode`. -/
theorem detectColumnType_matches_spec :
    (∀ columnValues,
        detectColumnType columnValues = specInferType columnValues) ∧
    detectColumnType ["12345".toList, "90210".toList, "10001-1234".toList]
      = ColumnType.zipcode := by
  have heq : ∀ columnValues,
      detectColumnType columnValues = specInferType columnValues := by
    intro vs
    unfold detectColumnType specInferType
    by_cases h0 : vs.isEmpty
    · simp [h0]
    · simp only [h0, if_false, Bool.false_eq_true]
      by_cases h1 : (detectSample vs).isEmpty
      · simp [h1]
      · simp only [h1, if_false, Bool.false_eq_true]
        have hn : 0 < (detectSample vs).length := by
          cases hs : detectSample vs with
          | nil => simp [hs] at h1
          | cons a l => simp [hs]
        by_cases c1 : 3 * (detectSample vs).length ≤
            5 * (detectSample vs).countP emailShape <;>
        by_cases c2 : 3 * (detectSample vs).length ≤
            5 * (detectSample vs).countP zipShape <;>
        by_cases c3 : 3 * (detectSample vs).length ≤
            5 * (detectSample vs).countP phoneShape <;>
        by_cases c4 : 3 * (detectSample vs).length ≤
            5 * (detectSample vs).countP ssnShape <;>
        by_cases c5 : 3 * (detectSample vs).length ≤
            5 * (detectSample vs).countP currencyInferShape <;>
        by_cases c6 : 3 * (detectSample vs).length ≤
            5 * (detectSample vs).countP dateTestJs <;>
        by_cases c7 : 3 * (detectSample vs).length ≤
            5 * (detectSample vs).countP numberShape <;>
        simp [typePriority, List.find?, pct_ge_sixty_iff _ _ hn,
          c1, c2, c3, c4, c5, c6, c7]
  exact ⟨heq, (heq _).trans (by decide)⟩

/-! ### Header row detection (`detectHeaderRow`, ExcelTransformer.ts) -/

/-- `row.filter(cell => cell !== "").length`. -/
def rowNonEmpty (row : List Cell) : Nat :=
  row.countP cellNonEmpty

/-- `row.filter(cell => typeof cell === "string" && cell !== "").length`. -/
def rowStrings (row : List Cell) : Nat :=
  row.countP isNonEmptyStringCell

/-- `row.filter(cell => typeof cell === "number").length`. -/
def rowNumbers (row : List Cell) : Nat :=
  row.countP isNumberCell

/-- Total length of the non-empty string cells of a row (the numerator of
`avgStringLength`). -/
def rowStringLenSum (row : List Cell) : Nat :=
  ((row.filter isNonEmptyStringCell).map
    (fun c => (jsToStringCell c).length)).sum

/-- `rawData[i]` as a total function (rows beyond the end count as empty;
they are never accessed in range in the source). -/
def rowAt (d : List (List Cell)) (i : Nat) : List Cell :=
  d.getD i []

/-- The `isLikelyHeader` test of the first scan: at least 3 string cells,
string-percentage above 65, non-empty/width ratio above 0.5, and average
string length strictly between 0 and 30. -/
def isLikelyHeaderRow (row : List Cell) : Bool :=
  let ne := rowNonEmpty row
  let sc := rowStrings row
  let stringPercent : ℚ := ((sc : ℚ) / (ne : ℚ)) * 100
  let columnsWithValues : ℚ := (ne : ℚ) / (max 1 row.length : ℚ)
  let avgStringLength : ℚ := (rowStringLenSum row : ℚ) / (max 1 sc : ℚ)
  decide (3 ≤ sc) && decide (65 < stringPercent) &&
  decide ((1 : ℚ) / 2 < columnsWithValues) &&
  decide (0 < avgStringLength) && decide (avgStringLength < 30)

/-- The confirming-evidence check on the row below a likely header: at
least as many non-empty cells and at least one numeric cell. -/
def headerConfirmedByNextRow (cur next : List Cell) : Bool :=
  decide (rowNonEmpty cur ≤ rowNonEmpty next) && decide (0 < rowNumbers next)

/-- The first scan of `detectHeaderRow`: over the first 15 rows, skip rows
with fewer than 3 non-empty cells, and return the first likely header row.
The source inspects the next row for confirming evidence, but returns `i`
on both branches of that inspection. -/
def scanLikelyHeader (d : List (List Cell)) : Option Nat :=
  (List.range (min 15 d.length)).findSome? (fun i =>
    let row := rowAt d i
    if rowNonEmpty row < 3 then none
    else if isLikelyHeaderRow row then
      if i < d.length - 1 then
        if headerConfirmedByNextRow row (rowAt d (i + 1)) then some i
        else some i
      else some i
    else none)

/-- `detectConsistentColumnStructure`: the first index with at least 3
non-empty cells whose two following rows have the same non-empty count. -/
def consistentStructureIndex (d : List (List Cell)) : Option Nat :=
  if d.length < 3 then none
  else
    let counts := d.map rowNonEmpty
    (List.range (counts.length - 2)).findSome? (fun i =>
      let c := counts.getD i 0
      if c < 3 then none
      else if counts.getD (i + 1) 0 = c ∧ counts.getD (i + 2) 0 = c then
        some i
      else none)

/-- The consistent-structure fallback: prefer the found row when it is
string-majority, else the string-majority row just before it, else the
found row itself. -/
def stageConsistent (d : List (List Cell)) : Option Nat :=
  match consistentStructureIndex d with
  | none => none
  | some c =>
    let row := rowAt d c
    if (3 : ℚ) / 5 < (rowStrings row : ℚ) / (rowNonEmpty row : ℚ) then some c
    else if 0 < c then
      let rb := rowAt d (c - 1)
      if (3 : ℚ) / 5 < (rowStrings rb : ℚ) / (max 1 (rowNonEmpty rb) : ℚ) ∧
          3 ≤ rowNonEmpty rb then some (c - 1)
      else some c
    else some c

/-- `analyzeRowTypes`: string percentage of a row, 0 for an all-empty row. -/
def stringPercentOf (row : List Cell) : ℚ :=
  if rowNonEmpty row = 0 then 0
  else ((rowStrings row : ℚ) / (rowNonEmpty row : ℚ)) * 100

/-- `analyzeRowTypes`: number percentage of a row, 0 for an all-empty row. -/
def numberPercentOf (row : List Cell) : ℚ :=
  if rowNonEmpty row = 0 then 0
  else ((rowNumbers row : ℚ) / (rowNonEmpty row : ℚ)) * 100

/-- `detectHeaderByColumnTypes`: a mostly-string row followed within two
rows by a more-numeric row. -/
def stageTypeTransition (d : List (List Cell)) : Option Nat :=
  if d.length < 3 then none
  else
    (List.range (min 10 (d.length - 2))).findSome? (fun i =>
      let row := rowAt d i
      if rowNonEmpty row < 3 then none
      else if 70 ≤ stringPercentOf row ∧
          (numberPercentOf row < numberPercentOf (rowAt d (i + 1)) ∨
           numberPercentOf row < numberPercentOf (rowAt d (i + 2))) then
        some i
      else none)

/-- Third fallback: the first of the first 10 rows with at least 3
non-empty cells that is string-majority. -/
def stageFirstMeaningful (d : List (List Cell)) : Option Nat :=
  (List.range (min 10 d.length)).findSome? (fun i =>
    let row := rowAt d i
    if 3 ≤ rowNonEmpty row ∧
        (3 : ℚ) / 5 < (rowStrings row : ℚ) / (rowNonEmpty row : ℚ) then some i
    else none)

/-- Last fallback: the first of the first 10 rows with at least 3
non-empty cells. -/
def stageFirstNonEmpty (d : List (List Cell)) : Option Nat :=
  (List.range (min 10 d.length)).findSome? (fun i =>
    if 3 ≤ rowNonEmpty (rowAt d i) then some i else none)

/-- `detectHeaderRow` (ExcelTransformer.ts): the ordered fallback chain;
row 0 when every stage fails or the grid is empty. -/
def detectHeaderRow (d : List (List Cell)) : Nat :=
  if d.isEmpty then 0
  else match scanLikelyHeader d with
  | some i => i
  | none => match stageConsistent d with
    | some i => i
    | none => match stageTypeTransition d with
      | some i => i
      | none => match stageFirstMeaningful d with
        | some i => i
        | none => match stageFirstNonEmpty d with
          | some i => i
          | none => 0

theorem find?_range_eq_some_iff (n : Nat) (p : Nat → Bool) :
    ∀ i, (List.range n).find? p = some i ↔
      i < n ∧ p i = true ∧ ∀ j < i, p j = false := by
  induction n with
  | zero => simp
  | succ n ih =>
    intro i
    rw [List.range_succ, List.find?_append]
    cases h : (List.range n).find? p with
    | some k =>
      have hk := (ih k).mp h
      simp only [Option.or_some, Option.some.injEq]
      constructor
      · rintro rfl
        exact ⟨Nat.lt_succ_of_lt hk.1, hk.2.1, hk.2.2⟩
      · rintro ⟨hi, hpi, hmin⟩
        rcases Nat.lt_trichotomy i k with hlt | rfl | hgt
        · exact absurd hpi (by simp [hk.2.2 i hlt])
        · rfl
        · exact absurd hk.2.1 (by simp [hmin k hgt])
    | none =>
      have hnone : ∀ j < n, p j = false := by
        intro j hj
        have := List.find?_eq_none.mp h j (List.mem_range.mpr hj)
        simpa using this
      simp only [Option.none_or, List.find?]
      cases hpn : p n with
      | true =>
        simp only [Option.some.injEq]
        constructor
        · rintro rfl
          exact ⟨Nat.lt_succ_self n, hpn, hnone⟩
        · rintro ⟨hi, hpi, hmin⟩
          rcases Nat.lt_succ_iff_lt_or_eq.mp hi with hlt | rfl
          · exact absurd hpi (by simp [hnone i hlt])
          · rfl
      | false =>
        constructor
        · rintro ⟨⟩
        · rintro ⟨hi, hpi, hmin⟩
          rcases Nat.lt_succ_iff_lt_or_eq.mp hi with hlt | rfl
          · exact absurd hpi (by simp [hnone i hlt])
          · exact absurd hpi (by simp [hpn])

theorem findSome?_guard_eq_find? {α : Type} (l : List α) (f : α → Option α)
    (p : α → Bool) (h : ∀ a ∈ l, f a = if p a then some a else none) :
    l.findSome? f = l.find? p := by
  induction l with
  | nil => rfl
  | cons a l ih =>
    rw [List.findSome?_cons, List.find?_cons]
    rw [h a (List.mem_cons_self a l)]
    cases hpa : p a with
    | true => simp
    | false =>
      simp only [Bool.false_eq_true, if_false]
      exact ih (fun b hb => h b (List.mem_cons_of_mem a hb))

theorem rowStrings_le_rowNonEmpty (row : List Cell) :
    rowStrings row ≤ rowNonEmpty row := by
  apply List.countP_mono_left
  intro c _ hc
  cases c with
  | str s => simpa [isNonEmptyStringCell, cellNonEmpty] using hc
  | num n => simp [cellNonEmpty]
  | boolv b => simp [cellNonEmpty]

theorem likely_header_nonEmpty {row : List Cell}
    (h : isLikelyHeaderRow row = true) : 3 ≤ rowNonEmpty row := by
  have h3 : 3 ≤ rowStrings row := by
    unfold isLikelyHeaderRow at h
    simp only [Bool.and_eq_true, decide_eq_true_eq] at h
    exact h.1.1.1.1
  exact le_trans h3 (rowStrings_le_rowNonEmpty row)

/-- The sparse-row skip of the first scan never hides a likely header (a
likely header has at least 3 string cells, hence at least 3 non-empty
cells), and the confirming-evidence inspection returns the same index on
both branches; the scan therefore finds exactly the earliest likely row. -/
theorem scanLikelyHeader_eq_find? (d : List (List Cell)) :
    scanLikelyHeader d = (List.range (min 15 d.length)).find?
      (fun i => isLikelyHeaderRow (rowAt d i)) := by
  unfold scanLikelyHeader
  apply findSome?_guard_eq_find?
  intro i _
  by_cases hne : rowNonEmpty (rowAt d i) < 3
  · have hnl : isLikelyHeaderRow (rowAt d i) = false := by
      cases hl : isLikelyHeaderRow (rowAt d i) with
      | false => rfl
      | true => exact absurd (likely_header_nonEmpty hl) (by omega)
    simp [hne, hnl]
  · simp only [hne, if_false]
    cases hl : isLikelyHeaderRow (rowAt d i) with
    | false => simp [hl]
    | true =>
      simp only [hl, if_true]
      split
      · split <;> rfl
      · rfl

/-- The spec's header-detection example grid. -/
def exampleHeaderGrid : List (List Cell) :=
  [[Cell.str "Q1 Report".toList, Cell.str [], Cell.str [], Cell.str []],
   [Cell.str "Name".toList, Cell.str "Age".toList, Cell.str "Email".toList,
    Cell.str "Zip".toList],
   [Cell.str "Alice".toList, Cell.num 30, Cell.str "a@b.com".toList,
    Cell.str "12345".toList]]

/-- C2: among the first 15 rows, a candidate row with at least 3 non-empty
cells is accepted by the header scan iff it has at least 3 string cells,
string-percentage above 65%, non-empty/width ratio above 0.5 and average
string length strictly between 0 and 30 — the scan returns exactly the
earliest such row, and the confirming next-row evidence is not required.
On the grid with row 0 `["Q1 Report","","",""]`, row 1
`["Name","Age","Email","Zip"]`, row 2 `["Alice",30,"a@b.com","12345"]`,
the detected header row index is 1. -/
theorem headerScan_accepts_iff_likely :
    (∀ d i, scanLikelyHeader d = some i ↔
      (i < min 15 d.length ∧ isLikelyHeaderRow (rowAt d i) = true ∧
       ∀ j < i, isLikelyHeaderRow (rowAt d j) = false)) ∧
    detectHeaderRow exampleHeaderGrid = 1 := by
  have hchar : ∀ d i, scanLikelyHeader d = some i ↔
      (i < min 15 d.length ∧ isLikelyHeaderRow (rowAt d i) = true ∧
       ∀ j < i, isLikelyHeaderRow (rowAt d j) = false) := by
    intro d i
    rw [scanLikelyHeader_eq_find?]
    exact find?_range_eq_some_iff _ _ i
  refine ⟨hchar, ?_⟩
  have h1 : isLikelyHeaderRow (rowAt exampleHeaderGrid 1) = true := by
    have hne : rowNonEmpty (rowAt exampleHeaderGrid 1) = 4 := rfl
    have hsc : rowStrings (rowAt exampleHeaderGrid 1) = 4 := rfl
    have hsum : rowStringLenSum (rowAt exampleHeaderGrid 1) = 15 := rfl
    have hlen : (rowAt exampleHeaderGrid 1).length = 4 := rfl
    simp only [isLikelyHeaderRow, hne, hsc, hsum, hlen]
    norm_num
  have h0 : isLikelyHeaderRow (rowAt exampleHeaderGrid 0) = false := by
    have hsc : rowStrings (rowAt exampleHeaderGrid 0) = 1 := rfl
    simp only [isLikelyHeaderRow, hsc]
    norm_num
  have hscan : scanLikelyHeader exampleHeaderGrid = some 1 := by
    rw [hchar]
    refine ⟨by simp [exampleHeaderGrid], h1, ?_⟩
    intro j hj
    interval_cases j
    exact h0
  simp only [detectHeaderRow, hscan]
  rw [if_neg (by simp [exampleHeaderGrid])]

/-! ### Table materialization (`processSheetWithCustomHeaders`,
ExcelTransformer.ts) -/

/-- A JS object used as a row: ordered key/value pairs, keys unique by
construction of `objSet`. -/
abbrev Obj : Type := List (List Char × Cell)

/-- The keys of a row object, in insertion order. -/
def keysOf (obj : Obj) : List (List Char) :=
  obj.map Prod.fst

/-- JS property read `obj[key]` (`none` = `undefined`). -/
def lookupObj : Obj → List Char → Option Cell
  | [], _ => none
  | (k, v) :: rest, key => if k = key then some v else lookupObj rest key

/-- JS property write `obj[key] = v`: overwrite in place when the key
exists, else append (insertion order preserved). -/
def objSet (obj : Obj) (k : List Char) (v : Cell) : Obj :=
  if obj.any (fun p => decide (p.1 = k)) then
    obj.map (fun p => if p.1 = k then (k, v) else p)
  else obj ++ [(k, v)]

/-- `header ? String(header).trim() : "Column" + (index + 1)`: the key
derived for one header cell. -/
def toHeaderKey (cell : Cell) (idx : Nat) : List Char :=
  if truthyCell cell then jsTrim (jsToStringCell cell)
  else "Column".toList ++ (toString (idx + 1)).toList

/-- `rawData[headerRowIndex].map((header, index) => ...)`. -/
def makeHeaders (row : List Cell) : List (List Char) :=
  row.enum.map (fun p => toHeaderKey p.2 p.1)

/-- Build one data-row object: `obj[headers[j]] = j < row.length ? row[j] : ""`
for `j = 0 .. headers.length - 1` in order. -/
def buildRowObj (headers : List (List Char)) (row : List Cell) : Obj :=
  headers.enum.foldl (fun obj p => objSet obj p.2 (row.getD p.1 (Cell.str []))) []

/-- `processSheetWithCustomHeaders` for a resolved header row index:
empty sheet gives an empty table, an out-of-bounds index throws (`none`),
otherwise every row strictly after the header row is materialized. -/
def processSheetWithCustomHeaders (rawData : List (List Cell))
    (headerRowIndex : Nat) : Option (List Obj) :=
  if rawData.isEmpty then some []
  else if rawData.length ≤ headerRowIndex then none
  else
    let headers := makeHeaders (rowAt rawData headerRowIndex)
    some ((rawData.drop (headerRowIndex + 1)).map (buildRowObj headers))

/-- Insert a key at the back unless already present (the key set growth of
one `objSet`). -/
def insKey (acc : List (List Char)) (k : List Char) : List (List Char) :=
  if k ∈ acc then acc else acc ++ [k]

/-- The distinct keys of a header list, first occurrence order. -/
def dedupKeys (ks : List (List Char)) : List (List Char) :=
  ks.foldl insKey []

theorem any_keys_iff (obj : Obj) (k : List Char) :
    obj.any (fun p => decide (p.1 = k)) = true ↔ k ∈ keysOf obj := by
  induction obj with
  | nil => simp [keysOf]
  | cons p rest ih =>
    simp only [List.any_cons, Bool.or_eq_true, decide_eq_true_eq, keysOf,
      List.map_cons, List.mem_cons]
    constructor
    · rintro (h | h)
      · exact Or.inl h.symm
      · exact Or.inr (by simpa [keysOf] using ih.mp h)
    · rintro (h | h)
      · exact Or.inl h.symm
      · exact Or.inr (ih.mpr (by simpa [keysOf] using h))

theorem keys_objSet (obj : Obj) (k : List Char) (v : Cell) :
    keysOf (objSet obj k v) = insKey (keysOf obj) k := by
  unfold objSet insKey
  by_cases h : k ∈ keysOf obj
  · rw [if_pos ((any_keys_iff obj k).mpr h), if_pos h]
    unfold keysOf
    rw [List.map_map]
    apply List.map_congr_left
    intro p _
    by_cases hp : p.1 = k
    · simp [hp]
    · simp [hp]
  · rw [if_neg (fun hc => h ((any_keys_iff obj k).mp hc)), if_neg h]
    simp [keysOf]

theorem objSet_not_mem (obj : Obj) (k : List Char) (v : Cell)
    (h : k ∉ keysOf obj) : objSet obj k v = obj ++ [(k, v)] := by
  unfold objSet
  rw [if_neg (fun hc => h ((any_keys_iff obj k).mp hc))]

theorem keys_buildFold (g : Nat × List Char → Cell) :
    ∀ (l : List (Nat × List Char)) (obj : Obj),
      keysOf (l.foldl (fun o p => objSet o p.2 (g p)) obj) =
        (l.map Prod.snd).foldl insKey (keysOf obj) := by
  intro l
  induction l with
  | nil => intro obj; rfl
  | cons p l ih =>
    intro obj
    simp only [List.foldl_cons, List.map_cons]
    rw [ih, keys_objSet]

theorem keys_buildRowObj (headers : List (List Char)) (row : List Cell) :
    keysOf (buildRowObj headers row) = dedupKeys headers := by
  unfold buildRowObj dedupKeys
  rw [keys_buildFold (fun p => row.getD p.1 (Cell.str []))]
  rw [List.enum_eq_enumFrom, List.enumFrom_map_snd]
  rfl

theorem keysOf_append (a b : Obj) : keysOf (a ++ b) = keysOf a ++ keysOf b := by
  simp [keysOf]

theorem foldObj_nodup (g : Nat × List Char → Cell) :
    ∀ (l : List (Nat × List Char)) (obj : Obj),
      (l.map Prod.snd).Nodup → (∀ k ∈ l.map Prod.snd, k ∉ keysOf obj) →
      l.foldl (fun o p => objSet o p.2 (g p)) obj =
        obj ++ l.map (fun p => (p.2, g p)) := by
  intro l
  induction l with
  | nil => intro obj _ _; simp
  | cons p l ih =>
    intro obj hnd hdisj
    simp only [List.map_cons, List.nodup_cons] at hnd
    simp only [List.foldl_cons]
    rw [objSet_not_mem obj p.2 (g p)
      (hdisj p.2 (by simp))]
    rw [ih (obj ++ [(p.2, g p)]) hnd.2 ?_]
    · simp
    · intro k hk
      rw [keysOf_append]
      simp only [List.mem_append, keysOf, List.map_cons]
      rintro (h | h)
      · exact hdisj k (by simp [hk]) h
      · simp at h
        exact hnd.1 (h ▸ hk)

theorem buildRowObj_nodup (headers : List (List Char)) (row : List Cell)
    (hnd : headers.Nodup) :
    buildRowObj headers row =
      headers.enum.map (fun p => (p.2, row.getD p.1 (Cell.str []))) := by
  unfold buildRowObj
  rw [foldObj_nodup (fun p => row.getD p.1 (Cell.str [])) headers.enum []
    (by rw [List.enum_eq_enumFrom, List.enumFrom_map_snd]; exact hnd)
    (by intro k _ h; simp [keysOf] at h)]
  simp

theorem lookupObj_enumFrom_map (g : Nat × List Char → Cell) :
    ∀ (ks : List (List Char)) (n j : Nat), ks.Nodup → j < ks.length →
      lookupObj ((ks.enumFrom n).map (fun p => (p.2, g p))) (ks.getD j []) =
        some (g (n + j, ks.getD j [])) := by
  intro ks
  induction ks with
  | nil => intro n j _ hj; exact absurd hj (by simp)
  | cons k rest ih =>
    intro n j hnd hj
    simp only [List.nodup_cons] at hnd
    cases j with
    | zero =>
      simp [List.enumFrom, lookupObj, List.getD]
    | succ j =>
      have hjr : j < rest.length := by simpa using hj
      have hgd : (k :: rest).getD (j + 1) [] = rest.getD j [] := by
        simp [List.getD]
      have hmem : rest.getD j [] ∈ rest := by
        rw [List.getD_eq_getElem rest [] hjr]
        exact List.getElem_mem hjr
      have hne : ¬ k = rest.getD j [] := fun h => hnd.1 (h ▸ hmem)
      rw [hgd]
      simp only [List.enumFrom, List.map_cons, lookupObj]
      rw [if_neg hne]
      rw [ih (n + 1) j hnd.2 hjr]
      have : n + 1 + j = n + (j + 1) := by omega
      rw [this]

theorem dedupKeys_of_nodup :
    ∀ (ks acc : List (List Char)), ks.Nodup → (∀ k ∈ ks, k ∉ acc) →
      ks.foldl insKey acc = acc ++ ks := by
  intro ks
  induction ks with
  | nil => intro acc _ _; simp
  | cons k rest ih =>
    intro acc hnd hdisj
    simp only [List.nodup_cons] at hnd
    simp only [List.foldl_cons]
    rw [insKey, if_neg (hdisj k (by simp))]
    rw [ih (acc ++ [k]) hnd.2 ?_]
    · simp
    · intro x hx
      simp only [List.mem_append, List.mem_singleton]
      rintro (h | rfl)
      · exact hdisj x (by simp [hx]) h
      · exact hnd.1 hx

/-- A small grid used to instantiate the materializer theorems. -/
def witnessGrid : List (List Cell) :=
  [[Cell.str "Name".toList, Cell.str "Age".toList, Cell.str "Email".toList],
   [Cell.str "Alice".toList]]

/-- C3 (amended): for every grid and in-bounds header index, all
materialized rows share the identical key set (the first-occurrence
deduplication of the derived header keys); when the derived header keys
are pairwise distinct, the key count equals the header row's cell count
and every data row position reads back its source cell, with positions
past a short row padded by the empty string. Duplicate derived keys
collapse into a single object key, so the key count can be smaller than
the header row's cell count. -/
theorem materialize_key_invariants :
    ∀ (rawData : List (List Cell)) (h : Nat) (table : List Obj),
      h < rawData.length →
      processSheetWithCustomHeaders rawData h = some table →
      ((∀ obj ∈ table,
          keysOf obj = dedupKeys (makeHeaders (rowAt rawData h))) ∧
       ((makeHeaders (rowAt rawData h)).Nodup →
         (∀ obj ∈ table,
            (keysOf obj).length = (rowAt rawData h).length) ∧
         (∀ dr ∈ rawData.drop (h + 1),
            ∀ j, j < (makeHeaders (rowAt rawData h)).length →
            lookupObj (buildRowObj (makeHeaders (rowAt rawData h)) dr)
                ((makeHeaders (rowAt rawData h)).getD j []) =
              some (dr.getD j (Cell.str []))))) := by
  intro d h table hlt hps
  have hne : d.isEmpty = false := by
    cases d with
    | nil => simp at hlt
    | cons a l => rfl
  unfold processSheetWithCustomHeaders at hps
  rw [hne] at hps
  simp only [Bool.false_eq_true, if_false] at hps
  rw [if_neg (by omega)] at hps
  have htab : table = (d.drop (h + 1)).map (buildRowObj (makeHeaders (rowAt d h))) := by
    exact (Option.some.injEq _ _ ▸ hps.symm)
  subst htab
  constructor
  · intro obj hobj
    rcases List.mem_map.mp hobj with ⟨dr, _, rfl⟩
    exact keys_buildRowObj _ dr
  · intro hnd
    have hlenh : (makeHeaders (rowAt d h)).length = (rowAt d h).length := by
      simp [makeHeaders]
    constructor
    · intro obj hobj
      rcases List.mem_map.mp hobj with ⟨dr, _, rfl⟩
      rw [keys_buildRowObj _ dr]
      unfold dedupKeys
      rw [dedupKeys_of_nodup _ [] hnd (by simp)]
      simpa using hlenh
    · intro dr _ j hj
      rw [buildRowObj_nodup _ dr hnd]
      rw [List.enum_eq_enumFrom]
      have := lookupObj_enumFrom_map (fun p => dr.getD p.1 (Cell.str []))
        (makeHeaders (rowAt d h)) 0 j hnd hj
      simpa using this

theorem materialize_key_invariants_witness :
    lookupObj
        (buildRowObj (makeHeaders (rowAt witnessGrid 0)) (rowAt witnessGrid 1))
        ((makeHeaders (rowAt witnessGrid 0)).getD 2 []) =
      some ((rowAt witnessGrid 1).getD 2 (Cell.str [])) := by
  exact ((materialize_key_invariants witnessGrid 0
      ((witnessGrid.drop 1).map (buildRowObj (makeHeaders (rowAt witnessGrid 0))))
      (by decide) (by rfl)).2 (by decide)).2
    (rowAt witnessGrid 1) (by decide) 2 (by decide)

/-- A grid whose header row contains a duplicated value. -/
def dupHeaderGrid : List (List Cell) :=
  [[Cell.str "A".toList, Cell.str "A".toList],
   [Cell.str "x".toList, Cell.str "y".toList]]

/-- C3 counterexample: with header row `["A","A"]` the materialized row
has a single key, not one key per header cell. -/
theorem materialize_dup_keys_counterexample :
    processSheetWithCustomHeaders dupHeaderGrid 0 =
      some [[("A".toList, Cell.str "y".toList)]] ∧
    (keysOf [("A".toList, Cell.str "y".toList)]).length = 1 ∧
    (rowAt dupHeaderGrid 0).length = 2 := by
  decide

/-- C4 (amended): the key at position `i` is the trimmed
`String(cell)` when the header cell is truthy, and the synthetic
`Column(i+1)` exactly when the cell is falsy (empty string, missing, 0 or
false); there are as many derived keys as header cells. A whitespace-only
header cell is truthy, so it trims to the empty-string key rather than a
synthetic key, and duplicate header values are not renamed. -/
theorem headerKey_characterization :
    ∀ (row : List Cell) (i : Nat), i < row.length →
      ((makeHeaders row).getD i [] =
        if truthyCell (row.getD i (Cell.str [])) then
          jsTrim (jsToStringCell (row.getD i (Cell.str [])))
        else "Column".toList ++ (toString (i + 1)).toList) ∧
      (makeHeaders row).length = row.length := by
  intro row i hi
  have hlen : (makeHeaders row).length = row.length := by simp [makeHeaders]
  refine ⟨?_, hlen⟩
  rw [List.getD_eq_getElem _ [] (by omega)]
  rw [List.getD_eq_getElem _ (Cell.str []) hi]
  unfold makeHeaders
  rw [List.getElem_map]
  rw [List.getElem_enum]
  rfl

theorem headerKey_characterization_witness :
    (makeHeaders [Cell.str " Name ".toList, Cell.num 0]).getD 1 [] =
      (if truthyCell ([Cell.str " Name ".toList, Cell.num 0].getD 1 (Cell.str []))
        then jsTrim (jsToStringCell
          ([Cell.str " Name ".toList, Cell.num 0].getD 1 (Cell.str [])))
        else "Column".toList ++ (toString (1 + 1)).toList) := by
  exact (headerKey_characterization [Cell.str " Name ".toList, Cell.num 0] 1
    (by decide)).1

/-- C4 counterexample: a whitespace-only header cell produces the
empty-string key, not `Column1`, and a duplicated header value keeps its
text rather than being renamed to `Column2`. -/
theorem headerKey_whitespace_counterexample :
    makeHeaders [Cell.str [' ']] = [[]] ∧
    makeHeaders [Cell.str "A".toList, Cell.str "A".toList] =
      ["A".toList, "A".toList] ∧
    ¬ ([] : List Char) = "Column1".toList ∧
    ¬ "A".toList = "Column2".toList := by
  decide

/-! ### Standalone sanitizers (DataSanitizers.ts) -/

/-- `zip.replace(/[^a-zA-Z0-9]/g, "")`. -/
def cleanAlnum (s : List Char) : List Char :=
  s.filter isAlnumChar

/-- The country formats of `ZipCodeSanitizer`. -/
inductive ZipCountry where
  | us | ca | uk | other
deriving DecidableEq, Repr

/-- The output formats of `SsnSanitizer`: `XXX-XX-XXXX`, digits only
(`XXXXXXXXX`), or masked (`XXX-XX-****`). -/
inductive SsnFormat where
  | dashes | digitsOnly | masked
deriving DecidableEq, Repr

/-- `ZipCodeSanitizer.formatZipCode` (DataSanitizers.ts): JS
`toUpperCase` on the ASCII output of `cleanAlnum` agrees with
`Char.toUpper`. -/
def zipSanFormat (country : ZipCountry) (keepExtendedFormat : Bool)
    (zip : List Char) : List Char :=
  if zip.isEmpty then []
  else
    let cleanZip := cleanAlnum zip
    match country with
    | .us =>
      if cleanZip.length ≤ 5 then padStartList 5 '0' cleanZip
      else if keepExtendedFormat && cleanZip.length ≤ 9 then
        cleanZip.take 5 ++ '-' :: padEndList 4 '0' (cleanZip.drop 5)
      else if keepExtendedFormat then
        cleanZip.take 5 ++ '-' :: (cleanZip.drop 5).take 4
      else cleanZip.take 5
    | .ca =>
      if cleanZip.length ≤ 6 then padEndList 6 '0' (cleanZip.map Char.toUpper)
      else
        let f := (cleanZip.map Char.toUpper).take 6
        f.take 3 ++ ' ' :: f.drop 3
    | .uk =>
      if cleanZip.length ≤ 4 then cleanZip.map Char.toUpper
      else
        (cleanZip.take (cleanZip.length - 3) ++
          ' ' :: cleanZip.drop (cleanZip.length - 3)).map Char.toUpper
    | .other => cleanZip

/-- The digits of a string (`ssn.replace(/\D/g, "")`). -/
def digitsOf (s : List Char) : List Char :=
  s.filter isDigitChar

/-- `digits.padEnd(9, "0").substring(0, 9)`. -/
def padNine (digits : List Char) : List Char :=
  (padEndList 9 '0' digits).take 9

/-- Rendering of the nine-digit sequence in the configured output
format. -/
def renderSsn (format : SsnFormat) (p : List Char) : List Char :=
  match format with
  | .dashes => p.take 3 ++ '-' :: ((p.drop 3).take 2) ++ '-' :: p.drop 5
  | .digitsOnly => p
  | .masked => p.take 3 ++ '-' :: ((p.drop 3).take 2) ++ '-' :: "****".toList

/-- `SsnSanitizer.formatSSN` (DataSanitizers.ts): the original string is
returned when it contains no digit; otherwise the digits are padded at the
end with zeros, truncated to nine, and rendered. -/
def ssnSanFormat (format : SsnFormat) (ssn : List Char) : List Char :=
  let digits := digitsOf ssn
  if digits.isEmpty then ssn
  else renderSsn format (padNine digits)

theorem toUpper_toUpper (c : Char) :
    Char.toUpper (Char.toUpper c) = Char.toUpper c := by
  unfold Char.toUpper
  by_cases h : c.toNat ≥ 97 ∧ c.toNat ≤ 122
  · rw [if_pos h]
    obtain ⟨h1, h2⟩ := h
    generalize c.toNat = n at h1 h2
    interval_cases n <;> decide
  · rw [if_neg h, if_neg h]

theorem isAlnum_toUpper (c : Char) :
    isAlnumChar (Char.toUpper c) = isAlnumChar c := by
  unfold Char.toUpper
  by_cases h : c.toNat ≥ 97 ∧ c.toNat ≤ 122
  · rw [if_pos h]
    obtain ⟨h1, h2⟩ := h
    have hc : isAlnumChar c = true := by
      unfold isAlnumChar isAsciiAlpha isDigitChar
      simp only [Bool.or_eq_true, Bool.and_eq_true, decide_eq_true_eq]
      omega
    rw [hc]
    generalize c.toNat = n at h1 h2
    interval_cases n <;> decide
  · rw [if_neg h]


theorem cleanAlnum_of_all {s : List Char}
    (h : ∀ c ∈ s, isAlnumChar c = true) : cleanAlnum s = s :=
  List.filter_eq_self.mpr h

theorem mem_cleanAlnum_alnum {s : List Char} {c : Char}
    (h : c ∈ cleanAlnum s) : isAlnumChar c = true :=
  (List.mem_filter.mp h).2

theorem cleanAlnum_append (a b : List Char) :
    cleanAlnum (a ++ b) = cleanAlnum a ++ cleanAlnum b :=
  List.filter_append a b

theorem cleanAlnum_map_toUpper (s : List Char) :
    cleanAlnum (s.map Char.toUpper) = (cleanAlnum s).map Char.toUpper := by
  unfold cleanAlnum
  rw [List.filter_map]
  congr 1
  apply List.filter_congr
  intro c _
  exact isAlnum_toUpper c

theorem map_toUpper_idem (s : List Char) :
    (s.map Char.toUpper).map Char.toUpper = s.map Char.toUpper := by
  rw [List.map_map]
  apply List.map_congr_left
  intro c _
  exact toUpper_toUpper c

theorem padStartList_length (n : Nat) (c : Char) (s : List Char) :
    (padStartList n c s).length = max n s.length := by
  simp [padStartList]
  omega

theorem padEndList_length (n : Nat) (c : Char) (s : List Char) :
    (padEndList n c s).length = max n s.length := by
  simp [padEndList]
  omega

theorem padEndList_of_length_ge {n : Nat} {c : Char} {s : List Char}
    (h : n ≤ s.length) : padEndList n c s = s := by
  simp [padEndList, Nat.sub_eq_zero_of_le h]

theorem padStartList_of_length_ge {n : Nat} {c : Char} {s : List Char}
    (h : n ≤ s.length) : padStartList n c s = s := by
  simp [padStartList, Nat.sub_eq_zero_of_le h]

theorem cleanAlnum_of_all_padded {s : List Char}
    (h : ∀ c ∈ s, isAlnumChar c = true) (n : Nat) :
    cleanAlnum (padStartList n '0' s) = padStartList n '0' s := by
  apply cleanAlnum_of_all
  intro c hc
  rcases List.mem_append.mp hc with h0 | hs
  · rw [List.eq_of_mem_replicate h0]; decide
  · exact h c hs

theorem isEmpty_false_of_length {s : List Char} {n : Nat} (h : s.length = n)
    (hn : 0 < n) : s.isEmpty = false := by
  cases s with
  | nil => simp at h; omega
  | cons a l => rfl

theorem zip_us_five_roundtrip (c5 : List Char) (h5 : c5.length = 5)
    (hallc : ∀ x ∈ c5, isAlnumChar x = true) :
    zipSanFormat .us ext c5 = c5 := by
  have hne := isEmpty_false_of_length h5 (by omega)
  unfold zipSanFormat
  simp only [hne, Bool.false_eq_true, if_false, cleanAlnum_of_all hallc, h5]
  rw [if_pos (by omega)]
  exact padStartList_of_length_ge (by omega)

theorem zip_us_ext_roundtrip (c5 t : List Char) (h5 : c5.length = 5)
    (ht : t.length = 4) (hallc : ∀ x ∈ c5, isAlnumChar x = true)
    (hallt : ∀ x ∈ t, isAlnumChar x = true) :
    zipSanFormat .us true (c5 ++ '-' :: t) = c5 ++ '-' :: t := by
  have hclean : cleanAlnum (c5 ++ '-' :: t) = c5 ++ t := by
    rw [cleanAlnum_append, cleanAlnum_of_all hallc]
    show c5 ++ cleanAlnum ('-' :: t) = c5 ++ t
    unfold cleanAlnum
    rw [List.filter_cons]
    simp only [show isAlnumChar '-' = false from rfl, Bool.false_eq_true,
      if_false]
    show c5 ++ cleanAlnum t = c5 ++ t
    rw [cleanAlnum_of_all hallt]
  have hne : (c5 ++ '-' :: t).isEmpty = false := by
    cases c5 with
    | nil => simp at h5
    | cons a l => rfl
  unfold zipSanFormat
  simp only [hne, Bool.false_eq_true, if_false, hclean]
  have hlen : (c5 ++ t).length = 9 := by simp [h5, ht]
  rw [if_neg (by omega)]
  rw [if_pos (by simp [hlen])]
  rw [List.take_append_of_le_length (by omega), List.take_of_length_le (by omega)]
  rw [List.drop_left' h5]
  rw [padEndList_of_length_ge (by omega)]

theorem zip_us_idem_full (ext : Bool) (s : List Char) :
    zipSanFormat .us ext (zipSanFormat .us ext s) = zipSanFormat .us ext s := by
  by_cases hs : s.isEmpty
  · simp [zipSanFormat, hs]
  · have hall : ∀ c ∈ cleanAlnum s, isAlnumChar c = true :=
      fun c hc => mem_cleanAlnum_alnum hc
    by_cases h5 : (cleanAlnum s).length ≤ 5
    · have hX : zipSanFormat .us ext s = padStartList 5 '0' (cleanAlnum s) := by
        unfold zipSanFormat
        simp only [hs, Bool.false_eq_true, if_false]
        rw [if_pos h5]
      rw [hX]
      apply zip_us_five_roundtrip
      · rw [padStartList_length]; omega
      · intro x hx
        rcases List.mem_append.mp hx with h0 | h0
        · rw [List.eq_of_mem_replicate h0]; decide
        · exact hall x h0
    · cases ext with
      | false =>
        have hX : zipSanFormat .us false s = (cleanAlnum s).take 5 := by
          unfold zipSanFormat
          simp only [hs, Bool.false_eq_true, if_false]
          rw [if_neg h5]
          simp
        rw [hX]
        apply zip_us_five_roundtrip
        · exact List.length_take_of_le (by omega)
        · exact fun x hx => hall x (List.take_subset 5 _ hx)
      | true =>
        by_cases h9 : (cleanAlnum s).length ≤ 9
        · have hX : zipSanFormat .us true s =
              (cleanAlnum s).take 5 ++
                '-' :: padEndList 4 '0' ((cleanAlnum s).drop 5) := by
            unfold zipSanFormat
            simp only [hs, Bool.false_eq_true, if_false]
            rw [if_neg h5, if_pos (by simp [h9])]
          rw [hX]
          apply zip_us_ext_roundtrip
          · exact List.length_take_of_le (by omega)
          · rw [padEndList_length, List.length_drop]; omega
          · exact fun x hx => hall x (List.take_subset 5 _ hx)
          · intro x hx
            rcases List.mem_append.mp hx with hx | hx
            · exact hall x (List.drop_subset 5 _ hx)
            · rw [List.eq_of_mem_replicate hx]; decide
        · have hX : zipSanFormat .us true s =
              (cleanAlnum s).take 5 ++
                '-' :: ((cleanAlnum s).drop 5).take 4 := by
            unfold zipSanFormat
            simp only [hs, Bool.false_eq_true, if_false]
            rw [if_neg h5, if_neg (by simp [h9])]
            simp
          rw [hX]
          apply zip_us_ext_roundtrip
          · exact List.length_take_of_le (by omega)
          · rw [List.length_take, List.length_drop]; omega
          · exact fun x hx => hall x (List.take_subset 5 _ hx)
          · exact fun x hx =>
              hall x (List.drop_subset 5 _ (List.take_subset 4 _ hx))

theorem cleanAlnum_cons_nonalnum {c : Char} (h : isAlnumChar c = false)
    (t : List Char) : cleanAlnum (c :: t) = cleanAlnum t := by
  unfold cleanAlnum
  rw [List.filter_cons]
  simp [h]

theorem cleanAlnum_idem (s : List Char) :
    cleanAlnum (cleanAlnum s) = cleanAlnum s :=
  cleanAlnum_of_all (fun _ hc => mem_cleanAlnum_alnum hc)

theorem isEmpty_false_of_pos {s : List Char} (h : 0 < s.length) :
    s.isEmpty = false := by
  cases s with
  | nil => simp at h
  | cons a l => rfl

theorem zip_uk_idem_full (ext : Bool) (s : List Char) :
    zipSanFormat .uk ext (zipSanFormat .uk ext s) = zipSanFormat .uk ext s := by
  by_cases hs : s.isEmpty
  · simp [zipSanFormat, hs]
  · have hall : ∀ c ∈ cleanAlnum s, isAlnumChar c = true :=
      fun c hc => mem_cleanAlnum_alnum hc
    by_cases hcs : (cleanAlnum s).isEmpty
    · have hnil : cleanAlnum s = [] := List.isEmpty_iff.mp hcs
      have hX : zipSanFormat .uk ext s = [] := by
        unfold zipSanFormat
        simp only [hs, Bool.false_eq_true, if_false, hnil]
        rw [if_pos (by simp)]
        rfl
      rw [hX]
      simp [zipSanFormat, hX]
    · have hpos : 0 < (cleanAlnum s).length := by
        cases hc : cleanAlnum s with
        | nil => rw [hc] at hcs; simp at hcs
        | cons a l => simp
      by_cases h4 : (cleanAlnum s).length ≤ 4
      · have hX : zipSanFormat .uk ext s = (cleanAlnum s).map Char.toUpper := by
          unfold zipSanFormat
          simp only [hs, Bool.false_eq_true, if_false]
          rw [if_pos h4]
        rw [hX]
        have hne : ((cleanAlnum s).map Char.toUpper).isEmpty = false :=
          isEmpty_false_of_pos (by simpa using hpos)
        unfold zipSanFormat
        simp only [hne, Bool.false_eq_true, if_false]
        rw [cleanAlnum_map_toUpper, cleanAlnum_idem]
        rw [if_pos (by simpa using h4)]
        exact map_toUpper_idem _
      · have hX : zipSanFormat .uk ext s =
            ((cleanAlnum s).take ((cleanAlnum s).length - 3) ++
              ' ' :: (cleanAlnum s).drop ((cleanAlnum s).length - 3)).map
              Char.toUpper := by
          unfold zipSanFormat
          simp only [hs, Bool.false_eq_true, if_false]
          rw [if_neg h4]
        rw [hX]
        have hne : (((cleanAlnum s).take ((cleanAlnum s).length - 3) ++
            ' ' :: (cleanAlnum s).drop ((cleanAlnum s).length - 3)).map
            Char.toUpper).isEmpty = false := by
          apply isEmpty_false_of_pos
          simp only [List.length_map, List.length_append, List.length_cons]
          omega
        have hclean : cleanAlnum
            (((cleanAlnum s).take ((cleanAlnum s).length - 3) ++
              ' ' :: (cleanAlnum s).drop ((cleanAlnum s).length - 3)).map
              Char.toUpper) = (cleanAlnum s).map Char.toUpper := by
          rw [cleanAlnum_map_toUpper]
          congr 1
          rw [cleanAlnum_append]
          rw [cleanAlnum_of_all
            (fun x hx => hall x (List.take_subset _ _ hx))]
          rw [cleanAlnum_cons_nonalnum (by decide)]
          rw [cleanAlnum_of_all (fun x hx => hall x (List.drop_subset _ _ hx))]
          exact List.take_append_drop _ _
        unfold zipSanFormat
        simp only [hne, Bool.false_eq_true, if_false, hclean]
        rw [if_neg (by simpa using h4)]
        simp only [List.length_map]
        rw [← List.map_take, ← List.map_drop]
        rw [List.map_append, List.map_append, List.map_cons, List.map_cons]
        rw [map_toUpper_idem, map_toUpper_idem]

theorem zip_other_idem_full (ext : Bool) (s : List Char) :
    zipSanFormat .other ext (zipSanFormat .other ext s) =
      zipSanFormat .other ext s := by
  by_cases hs : s.isEmpty
  · simp [zipSanFormat, hs]
  · have hX : zipSanFormat .other ext s = cleanAlnum s := by
      unfold zipSanFormat
      simp only [hs, Bool.false_eq_true, if_false]
    rw [hX]
    by_cases hc : (cleanAlnum s).isEmpty
    · rw [List.isEmpty_iff.mp hc]
      simp [zipSanFormat]
    · unfold zipSanFormat
      simp only [hc, Bool.false_eq_true, if_false, cleanAlnum_idem]

theorem digitsOf_of_all {s : List Char}
    (h : ∀ c ∈ s, isDigitChar c = true) : digitsOf s = s :=
  List.filter_eq_self.mpr h

theorem mem_digitsOf_digit {s : List Char} {c : Char}
    (h : c ∈ digitsOf s) : isDigitChar c = true :=
  (List.mem_filter.mp h).2

theorem digitsOf_append (a b : List Char) :
    digitsOf (a ++ b) = digitsOf a ++ digitsOf b :=
  List.filter_append a b

theorem digitsOf_cons_nondigit {c : Char} (h : isDigitChar c = false)
    (t : List Char) : digitsOf (c :: t) = digitsOf t := by
  unfold digitsOf
  rw [List.filter_cons]
  simp [h]

theorem padNine_length (d : List Char) : (padNine d).length = 9 := by
  simp [padNine, padEndList]
  omega

theorem padNine_all_digits {d : List Char}
    (h : ∀ c ∈ d, isDigitChar c = true) :
    ∀ c ∈ padNine d, isDigitChar c = true := by
  intro c hc
  have hc' := List.take_subset 9 _ hc
  rcases List.mem_append.mp hc' with h0 | h0
  · exact h c h0
  · rw [List.eq_of_mem_replicate h0]; decide

theorem padNine_of_nine {p : List Char} (hp : p.length = 9) :
    padNine p = p := by
  unfold padNine
  rw [padEndList_of_length_ge (by omega)]
  exact List.take_of_length_le (by omega)

theorem digitsOf_renderSsn (fmt : SsnFormat) (p : List Char)
    (hall : ∀ c ∈ p, isDigitChar c = true) :
    digitsOf (renderSsn fmt p) =
      (if fmt = .masked then p.take 5 else p) := by
  cases fmt with
  | digitsOnly =>
    simp only [renderSsn, reduceCtorEq, if_false]
    exact digitsOf_of_all hall
  | dashes =>
    simp only [renderSsn, reduceCtorEq, if_false]
    rw [digitsOf_append, digitsOf_cons_nondigit (by decide),
      digitsOf_append, digitsOf_cons_nondigit (by decide)]
    rw [digitsOf_of_all (fun c hc => hall c (List.take_subset _ _ hc))]
    rw [digitsOf_of_all (fun c hc =>
      hall c (List.drop_subset _ _ (List.take_subset _ _ hc)))]
    rw [digitsOf_of_all (fun c hc => hall c (List.drop_subset _ _ hc))]
    rw [← List.take_add]
    show p.take 5 ++ p.drop 5 = p
    exact List.take_append_drop 5 p
  | masked =>
    simp only [renderSsn, if_true]
    rw [digitsOf_append, digitsOf_cons_nondigit (by decide),
      digitsOf_append, digitsOf_cons_nondigit (by decide)]
    rw [digitsOf_of_all (fun c hc => hall c (List.take_subset _ _ hc))]
    rw [digitsOf_of_all (fun c hc =>
      hall c (List.drop_subset _ _ (List.take_subset _ _ hc)))]
    rw [show digitsOf "****".toList = [] from rfl]
    rw [List.append_nil, ← List.take_add]

theorem ssn_idem_full (fmt : SsnFormat) (s : List Char) :
    ssnSanFormat fmt (ssnSanFormat fmt s) = ssnSanFormat fmt s := by
  by_cases hd : (digitsOf s).isEmpty
  · simp [ssnSanFormat, hd]
  · have hp : ∀ c ∈ padNine (digitsOf s), isDigitChar c = true :=
      padNine_all_digits (fun c hc => mem_digitsOf_digit hc)
    have hX : ssnSanFormat fmt s = renderSsn fmt (padNine (digitsOf s)) := by
      unfold ssnSanFormat
      simp only [hd, Bool.false_eq_true, if_false]
    rw [hX]
    have hlen : (padNine (digitsOf s)).length = 9 := padNine_length _
    have hdr := digitsOf_renderSsn fmt (padNine (digitsOf s)) hp
    cases fmt with
    | digitsOnly =>
      simp only [reduceCtorEq, if_false] at hdr
      have hnem : (digitsOf (renderSsn .digitsOnly (padNine (digitsOf s)))).isEmpty
          = false := by
        rw [hdr]; exact isEmpty_false_of_pos (by omega)
      unfold ssnSanFormat
      simp only [hnem, Bool.false_eq_true, if_false]
      rw [hdr, padNine_of_nine hlen]
    | dashes =>
      simp only [reduceCtorEq, if_false] at hdr
      have hnem : (digitsOf (renderSsn .dashes (padNine (digitsOf s)))).isEmpty
          = false := by
        rw [hdr]; exact isEmpty_false_of_pos (by omega)
      unfold ssnSanFormat
      simp only [hnem, Bool.false_eq_true, if_false]
      rw [hdr, padNine_of_nine hlen]
    | masked =>
      simp only [if_true] at hdr
      have hq5 : ((padNine (digitsOf s)).take 5).length = 5 :=
        List.length_take_of_le (by omega)
      have hnem : (digitsOf (renderSsn .masked (padNine (digitsOf s)))).isEmpty
          = false := by
        rw [hdr]; exact isEmpty_false_of_pos (by omega)
      unfold ssnSanFormat
      simp only [hnem, Bool.false_eq_true, if_false]
      rw [hdr]
      have hpad : ∀ q : List Char, q.length = 5 →
          padNine q = q ++ List.replicate 4 '0' := by
        intro q hq
        unfold padNine padEndList
        rw [hq]
        exact List.take_of_length_le (by simp [hq])
      rw [hpad _ hq5]
      simp only [renderSsn]
      rw [List.take_append_of_le_length (by rw [hq5]; omega)]
      rw [List.take_take, show (3 : Nat) ⊓ 5 = 3 from rfl]
      rw [List.drop_append_of_le_length (by rw [hq5]; omega)]
      rw [List.take_append_of_le_length (by rw [List.length_drop, hq5])]
      rw [List.drop_take, List.take_take,
        show (2 : Nat) ⊓ (5 - 3) = 2 from rfl]

/-- C7 (amended): sanitizing an already-sanitized value again with the
same sanitizer and options yields the same value for the SSN sanitizer in
every output format, and for the zip sanitizer in the US, UK and other
country formats; the cited examples hold (`"12345"` stays `"12345"`,
`"123-45-6789"` reformatted as `XXX-XX-XXXX` is unchanged). The CA format
is excluded: it is not idempotent. -/
theorem sanitize_idempotent_non_ca :
    (∀ fmt s, ssnSanFormat fmt (ssnSanFormat fmt s) = ssnSanFormat fmt s) ∧
    (∀ country ext s, country ≠ ZipCountry.ca →
      zipSanFormat country ext (zipSanFormat country ext s) =
        zipSanFormat country ext s) ∧
    zipSanFormat .us false "12345".toList = "12345".toList ∧
    ssnSanFormat .dashes "123-45-6789".toList = "123-45-6789".toList := by
  refine ⟨ssn_idem_full, ?_, by decide, by decide⟩
  intro country ext s hnca
  cases country with
  | us => exact zip_us_idem_full ext s
  | ca => exact absurd rfl hnca
  | uk => exact zip_uk_idem_full ext s
  | other => exact zip_other_idem_full ext s

theorem sanitize_idempotent_non_ca_witness :
    zipSanFormat .us false (zipSanFormat .us false "987654321".toList) =
      zipSanFormat .us false "987654321".toList :=
  sanitize_idempotent_non_ca.2.1 .us false "987654321".toList (by decide)

/-- C7 counterexample: with the CA country format, `"1234567"` sanitizes
to `"123 456"`, which sanitizes again to `"123456"` — re-sanitizing
changes the value, refuting idempotence for every sanitizer/option pair. -/
theorem zip_ca_not_idempotent :
    zipSanFormat .ca false "1234567".toList = "123 456".toList ∧
    zipSanFormat .ca false "123 456".toList = "123456".toList ∧
    ¬ zipSanFormat .ca false (zipSanFormat .ca false "1234567".toList) =
        zipSanFormat .ca false "1234567".toList := by
  decide

/-- C10: an input with no digit characters is returned by the SSN
sanitizer unchanged; an input with at least one digit is reduced to its
digits, padded/truncated to exactly nine, and rendered in the configured
output format. -/
theorem ssnSanitizer_no_digits_unchanged :
    (∀ fmt s, digitsOf s = [] → ssnSanFormat fmt s = s) ∧
    (∀ fmt s, digitsOf s ≠ [] →
      ssnSanFormat fmt s = renderSsn fmt (padNine (digitsOf s))) := by
  constructor
  · intro fmt s h
    simp [ssnSanFormat, h]
  · intro fmt s h
    unfold ssnSanFormat
    rw [if_neg (by simp [List.isEmpty_iff, h])]

theorem ssnSanitizer_no_digits_unchanged_witness :
    ssnSanFormat .dashes "no-digits-here".toList = "no-digits-here".toList ∧
    ssnSanFormat .masked "12".toList =
      renderSsn .masked (padNine (digitsOf "12".toList)) :=
  ⟨ssnSanitizer_no_digits_unchanged.1 .dashes _ (by decide),
   ssnSanitizer_no_digits_unchanged.2 .masked _ (by decide)⟩

/-! ### The sanitize pass (TransformationPage.tsx) -/

/-- `formatPhoneNumber` (TransformationPage.tsx). -/
def formatPhoneNumberPage (value : List Char) : List Char :=
  let digitsOnly := digitsOf value
  if digitsOnly.length = 10 then
    digitsOnly.take 3 ++ '-' :: ((digitsOnly.drop 3).take 3) ++
      '-' :: digitsOnly.drop 6
  else if digitsOnly.length = 11 ∧ digitsOnly.getD 0 ' ' = '1' then
    (digitsOnly.drop 1).take 3 ++ '-' :: ((digitsOnly.drop 4).take 3) ++
      '-' :: digitsOnly.drop 7
  else if 7 ≤ digitsOnly.length then
    let localNumber := digitsOnly.drop (digitsOnly.length - 7)
    let start := digitsOnly.length - 10
    let areaCode := (digitsOnly.drop start).take (digitsOnly.length - 7 - start)
    let countryCode := digitsOnly.take (digitsOnly.length - 10)
    if !areaCode.isEmpty then
      if !countryCode.isEmpty then
        countryCode ++ '-' :: areaCode ++ '-' :: localNumber.take 3 ++
          '-' :: localNumber.drop 3
      else
        areaCode ++ '-' :: localNumber.take 3 ++ '-' :: localNumber.drop 3
    else localNumber.take 3 ++ '-' :: localNumber.drop 3
  else digitsOnly

/-- `formatZipCode` (TransformationPage.tsx): pad to five (or truncate to
the first five when requested), else hyphenate as ZIP+4. -/
def formatZipCodePage (value : List Char) (truncate : Bool) : List Char :=
  let digitsOnly := digitsOf value
  if truncate || digitsOnly.length ≤ 5 then
    padEndList 5 '0' (digitsOnly.take 5)
  else if digitsOnly.length ≤ 9 then
    digitsOnly.take 5 ++ '-' :: digitsOnly.drop 5
  else digitsOnly.take 5 ++ '-' :: ((digitsOnly.drop 5).take 4)

/-- `formatEmailAddress` (TransformationPage.tsx): trim and lowercase
(ASCII lowering; all values in scope are ASCII). -/
def formatEmailAddressPage (value : List Char) : List Char :=
  (jsTrim value).map Char.toLower

/-- `formatCurrency` (TransformationPage.tsx): prefix `$` when no
recognized currency symbol starts the value. -/
def formatCurrencyPage (value : List Char) : List Char :=
  match value with
  | c :: _ => if currencySymClass c then value else '$' :: value
  | [] => '$' :: value

/-- `formatSSN` (TransformationPage.tsx): unlike the standalone
`SsnSanitizer`, short digit strings are hyphenated without padding. -/
def formatSSNPage (value : List Char) : List Char :=
  let d := digitsOf value
  if d.length ≤ 3 then d
  else if d.length ≤ 5 then d.take 3 ++ '-' :: d.drop 3
  else d.take 3 ++ '-' :: ((d.drop 3).take 2) ++ '-' :: ((d.drop 5).take 4)

/-- Collapse every whitespace run to a single space
(`replace(/\s+/g, " ")`). -/
def collapseWs : List Char → List Char
  | [] => []
  | c :: rest =>
    if isSpaceChar c then ' ' :: collapseWs (rest.dropWhile isSpaceChar)
    else c :: collapseWs rest
termination_by s => s.length
decreasing_by
  · simp only [List.length_cons]
    exact Nat.lt_succ_of_le (List.dropWhile_sublist _).length_le
  · simp

/-- The special-character stripper of the sanitize pass: a character is
special when it is not `\w`, not `\s` and not in the preserve set. -/
def stripSpecialChars (preserved : List Char) (replaceWithSpace : Bool)
    (v : List Char) : List Char :=
  let isSpecial := fun c =>
    !(isWordChar c || isSpaceChar c || preserved.contains c)
  if replaceWithSpace then
    jsTrim (collapseWs (v.map (fun c => if isSpecial c then ' ' else c)))
  else v.filter (fun c => !isSpecial c)

/-- Per-column sanitization settings (`ColumnSanitizationSettings`,
DataPreview.tsx). -/
structure ColSettings where
  enableSanitization : Bool
  preserveCharacters : Option (List Char)
  columnType : Option ColumnType
deriving DecidableEq, Repr

/-- The global sanitization options (`SanitizationOptions`). -/
structure SanOptions where
  removeSpecialChars : Bool
  replaceWithSpace : Bool
  sanitizeZipCodes : Bool
deriving DecidableEq, Repr

/-- A string-keyed JS record. -/
def lookupAssoc {α : Type} : List (List Char × α) → List Char → Option α
  | [], _ => none
  | (k, v) :: rest, key => if k = key then some v else lookupAssoc rest key

/-- `columnSanitizationSettings[key]?.columnType || "auto"`. -/
def effColumnType (settings : List (List Char × ColSettings))
    (k : List Char) : ColumnType :=
  match lookupAssoc settings k with
  | some st => st.columnType.getD .auto
  | none => .auto

/-- `columnSanitizationSettings[key]?.preserveCharacters || ""`. -/
def preservedOf (settings : List (List Char × ColSettings))
    (k : List Char) : List Char :=
  match lookupAssoc settings k with
  | some st => st.preserveCharacters.getD []
  | none => []

/-- `columnSanitizationSettings[key]?.enableSanitization === false`. -/
def sanitizationDisabled (settings : List (List Char × ColSettings))
    (k : List Char) : Prop :=
  match lookupAssoc settings k with
  | some st => st.enableSanitization = false
  | none => False

instance (settings : List (List Char × ColSettings)) (k : List Char) :
    Decidable (sanitizationDisabled settings k) := by
  unfold sanitizationDisabled
  exact match lookupAssoc settings k with
  | some st => inferInstance
  | none => inferInstance

/-- The string branch of the first sanitize pass (the big `switch` of the
`sanitizeData` effect in TransformationPage.tsx); skipping leaves the
value unchanged. -/
def firstPassStr (opts : SanOptions)
    (settings : List (List Char × ColSettings)) (k : List Char)
    (v : List Char) : Cell :=
  if (jsTrim v).isEmpty then Cell.str v
  else match effColumnType settings k with
    | .zipcode => .str (formatZipCodePage v opts.sanitizeZipCodes)
    | .phone => .str (formatPhoneNumberPage v)
    | .email => .str (formatEmailAddressPage v)
    | .currency => .str (formatCurrencyPage v)
    | .ssn => .str (formatSSNPage v)
    | t =>
      if t = .auto ∧ emailShape v then .str (formatEmailAddressPage v)
      else if t = .auto ∧ currencyAutoShape v then
        .str (formatCurrencyPage v)
      else if t = .auto ∧ phoneShape v then .str (formatPhoneNumberPage v)
      else if t = .auto ∧ zipShape v then
        .str (formatZipCodePage v opts.sanitizeZipCodes)
      else if opts.removeSpecialChars then
        .str (stripSpecialChars (preservedOf settings k)
          opts.replaceWithSpace v)
      else .str v

/-- The first sanitize pass on one cell: non-string cells and skipped
columns are left unchanged. -/
def firstPassValue (opts : SanOptions)
    (settings : List (List Char × ColSettings)) (sel : List (List Char))
    (k : List Char) (c : Cell) : Cell :=
  if sanitizationDisabled settings k ∨ k ∉ sel then c
  else match c with
  | Cell.str v => firstPassStr opts settings k v
  | _ => c

/-- `columnSanitizationSettings[key]?.columnType !== undefined`. -/
def columnTypeConfigured (settings : List (List Char × ColSettings))
    (k : List Char) : Prop :=
  match lookupAssoc settings k with
  | some st => st.columnType ≠ none
  | none => False

instance (settings : List (List Char × ColSettings)) (k : List Char) :
    Decidable (columnTypeConfigured settings k) := by
  unfold columnTypeConfigured
  exact match lookupAssoc settings k with
  | some st => inferInstance
  | none => inferInstance

/-- The second, global sanitize-ZIP-codes pass on one cell: only columns
with no configured column type (and sanitization not disabled, and
selected) have `NNNNN-NNNN` values stripped to the captured five
digits. -/
def zipPassValue (settings : List (List Char × ColSettings))
    (sel : List (List Char)) (k : List Char) (c : Cell) : Cell :=
  if columnTypeConfigured settings k ∨
     sanitizationDisabled settings k ∨ k ∉ sel then c
  else match c with
  | Cell.str v => if zipExtShape v then .str (v.take 5) else c
  | _ => c

/-- One row through both passes. -/
def sanitizeRow (opts : SanOptions)
    (settings : List (List Char × ColSettings)) (sel : List (List Char))
    (row : Obj) : Obj :=
  let r1 := row.map (fun p => (p.1, firstPassValue opts settings sel p.1 p.2))
  if opts.sanitizeZipCodes then
    r1.map (fun p => (p.1, zipPassValue settings sel p.1 p.2))
  else r1

/-- The `sanitizeData` effect: the first pass over every row and cell,
then (when the global option is on) the zip pass over every row and
cell. -/
def sanitizeData (opts : SanOptions)
    (settings : List (List Char × ColSettings)) (sel : List (List Char))
    (data : List Obj) : List Obj :=
  let r1 := data.map (fun row =>
    row.map (fun p => (p.1, firstPassValue opts settings sel p.1 p.2)))
  if opts.sanitizeZipCodes then
    r1.map (fun row =>
      row.map (fun p => (p.1, zipPassValue settings sel p.1 p.2)))
  else r1

theorem digit_not_space {c : Char} (h : isDigitChar c = true) :
    isSpaceChar c = false := by
  simp only [isDigitChar, Bool.and_eq_true, decide_eq_true_eq] at h
  simp only [isSpaceChar, Bool.or_eq_false_iff, Bool.and_eq_false_iff]
  refine ⟨⟨⟨⟨⟨⟨⟨⟨?_, ?_⟩, ?_⟩, ?_⟩, ?_⟩, ?_⟩, ?_⟩, ?_⟩, ?_⟩ <;>
    simp only [decide_eq_false_iff_not, Bool.and_eq_false_iff] <;> omega

theorem digit_ne_nondigit {c x : Char} (hc : isDigitChar c = true)
    (hx : isDigitChar x = false) : c ≠ x := by
  intro he
  rw [he, hx] at hc
  exact Bool.false_ne_true hc

theorem digit_not_phoneSep {c : Char} (h : isDigitChar c = true) :
    phoneSepClass c = false := by
  simp only [phoneSepClass, Bool.or_eq_false_iff]
  refine ⟨⟨digit_not_space h, ?_⟩, ?_⟩ <;>
    exact decide_eq_false (digit_ne_nondigit h (by decide))

theorem digit_not_sym {c : Char} (h : isDigitChar c = true) :
    currencySymClass c = false := by
  simp only [currencySymClass, Bool.or_eq_false_iff]
  refine ⟨⟨⟨?_, ?_⟩, ?_⟩, ?_⟩ <;>
    exact decide_eq_false (digit_ne_nondigit h (by decide))

theorem phoneShape_zipext_false {a b c d e f g h i : Char}
    (ha : isDigitChar a = true) (hb : isDigitChar b = true)
    (hc : isDigitChar c = true) (hd : isDigitChar d = true)
    (he : isDigitChar e = true) (hf : isDigitChar f = true)
    (hg : isDigitChar g = true) (hh : isDigitChar h = true)
    (hi : isDigitChar i = true) :
    phoneShape [a, b, c, d, e, '-', f, g, h, i] = false := by
  have hpa : decide (a = '+') = false :=
    decide_eq_false (digit_ne_nondigit ha (by decide))
  have hopen : decide (a = '(') = false :=
    decide_eq_false (digit_ne_nondigit ha (by decide))
  have hclose : decide (d = ')') = false :=
    decide_eq_false (digit_ne_nondigit hd (by decide))
  have hsepd : phoneSepClass d = false := digit_not_phoneSep hd
  have hsepe : phoneSepClass e = false := digit_not_phoneSep he
  simp [phoneShape, pseq, popt, pchar, pexact, ha, hb, hc, hd, he, hf,
    hg, hh, hi, hpa, hopen, hclose, hsepd, hsepe,
    show isDigitChar '-' = false from by decide,
    show phoneSepClass '-' = true from by decide]

theorem splitAtChar_of_not_mem {sep : Char} {l : List Char} (h : sep ∉ l) :
    splitAtChar sep l = [l] := by
  induction l with
  | nil => rfl
  | cons c rest ih =>
    unfold splitAtChar
    rw [if_neg (fun he : c = sep => h (he ▸ List.mem_cons_self c rest))]
    rw [ih (fun hm => h (List.mem_cons_of_mem c hm))]

theorem emailShape_no_at {v : List Char} (h : '@' ∉ v) :
    emailShape v = false := by
  unfold emailShape
  rw [splitAtChar_of_not_mem h]

theorem sanitizeRow_mem (opts : SanOptions)
    (settings : List (List Char × ColSettings)) (sel : List (List Char))
    {row : Obj} {k : List Char} {c : Cell} (hm : (k, c) ∈ row) :
    (k, (if opts.sanitizeZipCodes then
          zipPassValue settings sel k (firstPassValue opts settings sel k c)
        else firstPassValue opts settings sel k c)) ∈
      sanitizeRow opts settings sel row := by
  unfold sanitizeRow
  cases hz : opts.sanitizeZipCodes with
  | true =>
    simp only [hz, if_true]
    have h1 : ((k, c).1, firstPassValue opts settings sel (k, c).1 (k, c).2) ∈
        row.map (fun p => (p.1, firstPassValue opts settings sel p.1 p.2)) :=
      List.mem_map_of_mem _ hm
    exact List.mem_map_of_mem _ h1
  | false =>
    simp only [hz, Bool.false_eq_true, if_false]
    exact List.mem_map_of_mem _ hm

/-- C6 (amended): the sanitize pass works row-by-row and cell-by-cell;
with the global sanitize-ZIP-codes option on, a string cell shaped
`NNNNN-NNNN` in a selected column with no per-column settings entry is
stripped to its leading five digits; but a column whose type is
explicitly configured to a non-zipcode type such as `text` (with
special-character removal off) is left untouched by the option — the
stripping is not an exception to column scoping for explicitly typed
columns. -/
theorem globalZipSanitize_scope :
    (∀ opts settings sel data,
      sanitizeData opts settings sel data =
        data.map (sanitizeRow opts settings sel)) ∧
    (∀ opts (settings : List (List Char × ColSettings))
        (sel : List (List Char)) (row : Obj) (k : List Char)
        (a b c d e f g h i : Char),
      isDigitChar a = true → isDigitChar b = true → isDigitChar c = true →
      isDigitChar d = true → isDigitChar e = true → isDigitChar f = true →
      isDigitChar g = true → isDigitChar h = true → isDigitChar i = true →
      opts.sanitizeZipCodes = true →
      lookupAssoc settings k = none →
      k ∈ sel →
      (k, Cell.str [a, b, c, d, e, '-', f, g, h, i]) ∈ row →
      (k, Cell.str [a, b, c, d, e]) ∈ sanitizeRow opts settings sel row) ∧
    (∀ opts (settings : List (List Char × ColSettings))
        (sel : List (List Char)) (row : Obj) (k v : List Char)
        (pc : Option (List Char)),
      opts.removeSpecialChars = false →
      lookupAssoc settings k = some ⟨true, pc, some .text⟩ →
      (k, Cell.str v) ∈ row →
      (k, Cell.str v) ∈ sanitizeRow opts settings sel row) := by
  refine ⟨?_, ?_, ?_⟩
  · intro opts settings sel data
    unfold sanitizeData sanitizeRow
    cases hz : opts.sanitizeZipCodes with
    | true => simp [List.map_map]
    | false => simp
  · intro opts settings sel row k a b c d e f g h i ha hb hc hd he hf hg
      hh hi hz hlk hsel hm
    set v := [a, b, c, d, e, '-', f, g, h, i] with hv
    have hmemv : ∀ x ∈ v, isDigitChar x = true ∨ x = '-' := by
      intro x hx
      rw [hv] at hx
      simp only [List.mem_cons, List.not_mem_nil, or_false] at hx
      rcases hx with rfl | rfl | rfl | rfl | rfl | rfl | rfl | rfl | rfl | rfl
      exacts [Or.inl ha, Or.inl hb, Or.inl hc, Or.inl hd, Or.inl he,
        Or.inr rfl, Or.inl hf, Or.inl hg, Or.inl hh, Or.inl hi]
    have hnat : '@' ∉ v := by
      intro hat
      rcases hmemv '@' hat with hdig | hdash
      · exact absurd hdig (by decide)
      · exact absurd hdash (by decide)
    have hnoskip : ¬ (sanitizationDisabled settings k ∨ k ∉ sel) := by
      rintro (hdis | hns)
      · unfold sanitizationDisabled at hdis
        rw [hlk] at hdis
        exact hdis
      · exact hns hsel
    have htrim : (jsTrim v).isEmpty = false := by
      rw [hv]
      simp [jsTrim, List.dropWhile, digit_not_space ha, digit_not_space hi]
    have heff : effColumnType settings k = .auto := by
      simp [effColumnType, hlk]
    have hemail : emailShape v = false := emailShape_no_at hnat
    have hcur : currencyAutoShape v = false := by
      rw [hv]
      simp [currencyAutoShape, List.dropWhile, digit_not_space ha,
        digit_not_sym ha]
    have hphone : phoneShape v = false := by
      rw [hv]
      exact phoneShape_zipext_false ha hb hc hd he hf hg hh hi
    have hzip : zipShape v = true := by
      rw [hv]
      simp [zipShape, List.getD, ha, hb, hc, hd, he, hf, hg, hh, hi]
    have hdigits : digitsOf v = [a, b, c, d, e, f, g, h, i] := by
      rw [hv]
      simp [digitsOf, List.filter, ha, hb, hc, hd, he, hf, hg, hh, hi,
        show isDigitChar '-' = false from by decide]
    have hfmt : formatZipCodePage v opts.sanitizeZipCodes = [a, b, c, d, e] := by
      rw [hz]
      unfold formatZipCodePage
      rw [hdigits]
      simp [padEndList]
    have hfirst : firstPassValue opts settings sel k (Cell.str v) =
        Cell.str [a, b, c, d, e] := by
      unfold firstPassValue
      rw [if_neg hnoskip]
      show firstPassStr opts settings k v = Cell.str [a, b, c, d, e]
      unfold firstPassStr
      rw [htrim]
      simp only [Bool.false_eq_true, if_false]
      rw [heff]
      simp only [hemail, hcur, hphone, hzip, Bool.false_eq_true, and_false,
        and_true, if_false, if_true]
      rw [hfmt]
    have hsecond : zipPassValue settings sel k (Cell.str [a, b, c, d, e]) =
        Cell.str [a, b, c, d, e] := by
      unfold zipPassValue
      rw [if_neg ?_]
      · show (if zipExtShape [a, b, c, d, e] = true then
            Cell.str (List.take 5 [a, b, c, d, e])
          else Cell.str [a, b, c, d, e]) = Cell.str [a, b, c, d, e]
        simp [zipExtShape]
      · rintro (hcfg | hdis | hns)
        · unfold columnTypeConfigured at hcfg
          rw [hlk] at hcfg
          exact hcfg
        · unfold sanitizationDisabled at hdis
          rw [hlk] at hdis
          exact hdis
        · exact hns hsel
    have := sanitizeRow_mem opts settings sel hm
    rw [hz] at this
    simp only [if_true] at this
    rw [hfirst, hsecond] at this
    exact this
  · intro opts settings sel row k v pc hrm hlk hm
    have hfirst : firstPassValue opts settings sel k (Cell.str v) =
        Cell.str v := by
      unfold firstPassValue
      by_cases hskip : sanitizationDisabled settings k ∨ k ∉ sel
      · rw [if_pos hskip]
      · rw [if_neg hskip]
        show firstPassStr opts settings k v = Cell.str v
        unfold firstPassStr
        cases htr : (jsTrim v).isEmpty with
        | true => simp
        | false =>
          simp only [Bool.false_eq_true, if_false]
          have heff : effColumnType settings k = .text := by
            simp [effColumnType, hlk]
          rw [heff]
          simp [hrm]
    have hsecond : zipPassValue settings sel k (Cell.str v) = Cell.str v := by
      unfold zipPassValue
      rw [if_pos (Or.inl ?_)]
      unfold columnTypeConfigured
      rw [hlk]
      simp
    have := sanitizeRow_mem opts settings sel hm
    cases hz : opts.sanitizeZipCodes with
    | true =>
      rw [hz] at this
      simp only [if_true] at this
      rw [hfirst, hsecond] at this
      exact this
    | false =>
      rw [hz] at this
      simp only [Bool.false_eq_true, if_false] at this
      rw [hfirst] at this
      exact this

/-- C6 counterexample: with sanitize-ZIP-codes on, a `NNNNN-NNNN` value
in a selected, sanitization-enabled column explicitly typed `text` is NOT
stripped to its leading five digits — the claim's "even in columns whose
type was not itself set to zipcode" fails. -/
theorem globalZip_typed_counterexample :
    sanitizeData ⟨false, true, true⟩
        [("A".toList, ⟨true, none, some ColumnType.text⟩)] ["A".toList]
        [[("A".toList, Cell.str "12345-6789".toList)]] =
      [[("A".toList, Cell.str "12345-6789".toList)]] ∧
    Cell.str "12345-6789".toList ≠ Cell.str "12345".toList := by
  decide

theorem globalZipSanitize_scope_witness :
    ("A".toList, Cell.str "12345".toList) ∈
      sanitizeRow ⟨false, true, true⟩ [] ["A".toList]
        [("A".toList, Cell.str "12345-6789".toList)] := by
  have := globalZipSanitize_scope.2.1 ⟨false, true, true⟩ [] ["A".toList]
    [("A".toList, Cell.str "12345-6789".toList)] "A".toList
    '1' '2' '3' '4' '5' '6' '7' '8' '9'
    (by decide) (by decide) (by decide) (by decide) (by decide) (by decide)
    (by decide) (by decide) (by decide) (by decide) (by decide)
    (by decide) (by decide)
  simpa using this

/-! ### Row filtering (`applyFilters`, TransformationPage.tsx)

JS numbers are modelled as exact rationals (`Option ℚ`, `none` = `NaN`);
`new Date(...)` is an external service, passed as an opaque valuation
`dv : Cell → Option ℚ` (`none` = invalid date). Infinities and non-ASCII
case mapping are outside every property below. -/

/-- ASCII hex digit. -/
def isHexDigitChar (c : Char) : Bool :=
  isDigitChar c || (65 ≤ c.toNat && c.toNat ≤ 70) ||
  (97 ≤ c.toNat && c.toNat ≤ 102)

/-- Value of an ASCII hex digit. -/
def hexDigitVal (c : Char) : Nat :=
  if c.toNat ≤ 57 then c.toNat - 48
  else if c.toNat ≤ 70 then c.toNat - 55
  else c.toNat - 87

/-- Accumulate digit values in a given base. -/
def parseRadixNat (digOk : Char → Bool) (digVal : Char → Nat) (base : Nat)
    (s : List Char) : Option ℚ :=
  if s.isEmpty || !s.all digOk then none
  else some ((s.foldl (fun acc c => acc * base + digVal c) 0 : Nat) : ℚ)

/-- Decimal digit run to a natural number (caller guarantees digits). -/
def parseDigitsNat (s : List Char) : Nat :=
  s.foldl (fun acc c => acc * 10 + (c.toNat - 48)) 0

/-- The `StrDecimalLiteral` part of JS `Number(...)`: optional integer
part, optional fraction, optional exponent; `Infinity` is not modelled
(`none`). -/
def parseDecBody (neg : Bool) (body : List Char) : Option ℚ :=
  if body = "Infinity".toList then none
  else
    let ip := body.takeWhile isDigitChar
    let r1 := body.dropWhile isDigitChar
    let fp := match r1 with
      | '.' :: rest => rest.takeWhile isDigitChar
      | _ => []
    let r2 := match r1 with
      | '.' :: rest => rest.dropWhile isDigitChar
      | _ => r1
    if ip.isEmpty && fp.isEmpty then none
    else
      let mant : ℚ := (parseDigitsNat ip : ℚ) +
        (parseDigitsNat fp : ℚ) / ((10 : ℚ) ^ fp.length)
      match r2 with
      | [] => some (if neg then -mant else mant)
      | c :: rest =>
        if c = 'e' ∨ c = 'E' then
          let eneg := match rest with
            | '-' :: _ => true
            | _ => false
          let ebody := match rest with
            | '-' :: t => t
            | '+' :: t => t
            | _ => rest
          if ebody.isEmpty || !ebody.all isDigitChar then none
          else
            let ev := parseDigitsNat ebody
            let m := if eneg then mant / (10 : ℚ) ^ ev
              else mant * (10 : ℚ) ^ ev
            some (if neg then -m else m)
        else none

/-- Signed decimal (sign allowed only on the decimal form in JS). -/
def parseDecSigned (t : List Char) : Option ℚ :=
  match t with
  | '-' :: rest => parseDecBody true rest
  | '+' :: rest => parseDecBody false rest
  | _ => parseDecBody false t

/-- JS `Number(string)`: trimmed-empty is 0, `0x`/`0b`/`0o` prefixes,
else signed decimal; `none` plays NaN. -/
def jsStringToNumber (s : List Char) : Option ℚ :=
  let t := jsTrim s
  if t.isEmpty then some 0
  else match t with
    | '0' :: x :: rest =>
      if x = 'x' ∨ x = 'X' then parseRadixNat isHexDigitChar hexDigitVal 16 rest
      else if x = 'b' ∨ x = 'B' then
        parseRadixNat (fun c => c = '0' ∨ c = '1')
          (fun c => c.toNat - 48) 2 rest
      else if x = 'o' ∨ x = 'O' then
        parseRadixNat (fun c => 48 ≤ c.toNat && c.toNat ≤ 55)
          (fun c => c.toNat - 48) 8 rest
      else parseDecSigned t
    | _ => parseDecSigned t

/-- JS `Number(cell)` for our cell primitives. -/
def toNumberCell : Cell → Option ℚ
  | .num n => some (n : ℚ)
  | .boolv b => some (if b then 1 else 0)
  | .str s => jsStringToNumber s

/-- The shapes a filter operand can take: a scalar, an array, a
`{from,to}` range object, or absent. -/
inductive FVal where
  | cell (c : Cell)
  | list (l : List Cell)
  | range (rfrom rto : Option Cell)
  | undef
deriving DecidableEq, Repr

/-- The filter operations of the `applyFilters` switch (`inOp`/`notInOp`
embed the source's `in`/`notIn`). Unknown operation strings (the
switch's `default: return true`) cannot be produced by the UI and are not
modelled. -/
inductive FilterOp where
  | equals | notEquals | contains | notContains | startsWith | endsWith
  | greaterThan | lessThan | between | inOp | notInOp | isTrue | isFalse
  | dateRange | before | after
deriving DecidableEq, Repr

/-- A column filter (`ColumnFilter` in the source): column key, UI type
tag, operation and operand. -/
structure ColFilter where
  column : List Char
  ftype : List Char
  operation : FilterOp
  value : FVal

/-- Join with a separator character (JS `Array.prototype.toString`). -/
def joinWith (sep : Char) : List (List Char) → List Char
  | [] => []
  | [x] => x
  | x :: rest => x ++ sep :: joinWith sep rest

/-- JS `String(value)` on a filter operand: arrays join with commas,
plain objects print `[object Object]`. -/
def jsToStringFVal : FVal → List Char
  | .cell c => jsToStringCell c
  | .list l => joinWith ',' (l.map jsToStringCell)
  | .range _ _ => "[object Object]".toList
  | .undef => "undefined".toList

/-- JS `Number(value)` on a filter operand: an object converts through
its string form. -/
def toNumberFVal : FVal → Option ℚ
  | .cell c => toNumberCell c
  | .undef => none
  | v => jsStringToNumber (jsToStringFVal v)

/-- Booleans convert to numbers ahead of a loose comparison. -/
def deboolCell : Cell → Cell
  | .boolv b => .num (if b then 1 else 0)
  | c => c

/-- ECMAScript Abstract Equality on our primitives. -/
def looseEqPrim (c d : Cell) : Bool :=
  match deboolCell c, deboolCell d with
  | .str a, .str b => a == b
  | .num a, .num b => a == b
  | .num a, .str b => decide (jsStringToNumber b = some (a : ℚ))
  | .str a, .num b => decide (jsStringToNumber a = some (b : ℚ))
  | _, _ => false

/-- `cellValue == value`: a primitive compared to an object goes through
the object's primitive (string) form. -/
def looseEqFV (c : Cell) (v : FVal) : Bool :=
  match v with
  | .cell d => looseEqPrim c d
  | .undef => false
  | .list l => looseEqPrim c (.str (jsToStringFVal (.list l)))
  | .range f t => looseEqPrim c (.str (jsToStringFVal (.range f t)))

/-- JS truthiness of an operand (objects are truthy). -/
def truthyFVal : FVal → Bool
  | .cell c => truthyCell c
  | .list _ => true
  | .range _ _ => true
  | .undef => false

/-- Truthiness of an optional cell (`undefined` is falsy). -/
def truthyOptCell : Option Cell → Bool
  | none => false
  | some c => truthyCell c

/-- `value.from` (`undefined` off a non-range operand). -/
def getFrom : FVal → Option Cell
  | .range f _ => f
  | _ => none

/-- `value.to`. -/
def getTo : FVal → Option Cell
  | .range _ t => t
  | _ => none

/-- `a >= b` under NaN semantics: false when either side is NaN. -/
def optGe (a b : Option ℚ) : Bool :=
  match a, b with
  | some x, some y => decide (y ≤ x)
  | _, _ => false

/-- `a <= b` under NaN semantics. -/
def optLe (a b : Option ℚ) : Bool :=
  match a, b with
  | some x, some y => decide (x ≤ y)
  | _, _ => false

/-- `a > b` under NaN semantics. -/
def optGt (a b : Option ℚ) : Bool :=
  match a, b with
  | some x, some y => decide (y < x)
  | _, _ => false

/-- `a < b` under NaN semantics. -/
def optLt (a b : Option ℚ) : Bool :=
  match a, b with
  | some x, some y => decide (x < y)
  | _, _ => false

/-- `new Date(value)` on an operand: only scalar operands can parse. -/
def dateOfFVal (dv : Cell → Option ℚ) : FVal → Option ℚ
  | .cell c => dv c
  | _ => none

/-- One filter predicate on one row (the `switch` of `applyFilters`):
false when the target cell is `null`/`undefined`. -/
def evalFilter (dv : Cell → Option ℚ) (f : ColFilter) (row : Obj) : Bool :=
  match lookupObj row f.column with
  | none => false
  | some cv =>
    match f.operation with
    | .equals => looseEqFV cv f.value
    | .notEquals => !looseEqFV cv f.value
    | .contains =>
      containsSub ((jsToStringCell cv).map Char.toLower)
        ((jsToStringFVal f.value).map Char.toLower)
    | .notContains =>
      !containsSub ((jsToStringCell cv).map Char.toLower)
        ((jsToStringFVal f.value).map Char.toLower)
    | .startsWith =>
      ((jsToStringFVal f.value).map Char.toLower).isPrefixOf
        ((jsToStringCell cv).map Char.toLower)
    | .endsWith =>
      ((jsToStringFVal f.value).map Char.toLower).isSuffixOf
        ((jsToStringCell cv).map Char.toLower)
    | .greaterThan => optGt (toNumberCell cv) (toNumberFVal f.value)
    | .lessThan => optLt (toNumberCell cv) (toNumberFVal f.value)
    | .between =>
      match f.value with
      | .list l =>
        optGe (toNumberCell cv) ((l.get? 0).bind toNumberCell) &&
        optLe (toNumberCell cv) ((l.get? 1).bind toNumberCell)
      | _ => false
    | .inOp =>
      match f.value with
      | .list l => l.any (fun x =>
          (jsToStringCell x).map Char.toLower ==
            (jsToStringCell cv).map Char.toLower)
      | _ => false
    | .notInOp =>
      match f.value with
      | .list l => !(l.any (fun x =>
          (jsToStringCell x).map Char.toLower ==
            (jsToStringCell cv).map Char.toLower))
      | _ => false
    | .isTrue => truthyCell cv
    | .isFalse => !truthyCell cv
    | .dateRange =>
      if !truthyOptCell (getFrom f.value) || !truthyOptCell (getTo f.value)
        then true
      else
        optGe (dv cv) ((getFrom f.value).bind dv) &&
        optLe (dv cv) ((getTo f.value).bind dv)
    | .before =>
      if !truthyFVal f.value then true
      else optLt (dv cv) (dateOfFVal dv f.value)
    | .after =>
      if !truthyFVal f.value then true
      else optGt (dv cv) (dateOfFVal dv f.value)

/-- `applyFilters`: the early returns on empty data / no filters, else
admit the rows on which every filter predicate holds. -/
def applyFilters (dv : Cell → Option ℚ) (filters : List ColFilter)
    (data : List Obj) : List Obj :=
  if data.isEmpty then []
  else if filters.isEmpty then data
  else data.filter (fun row => filters.all (fun f => evalFilter dv f row))

/-- A date valuation that parses nothing (used to instantiate the filter
theorems at concrete inputs). -/
def dv0 : Cell → Option ℚ := fun _ => none

/-- C5 (amended): a row is admitted iff every active filter predicate
evaluates true; a predicate is false whenever its target cell is
null/undefined; `dateRange` passes through true whenever either bound of
the range is absent or falsy; `between`, by contrast, evaluates false
(dropping the row) whenever its operand is not an array carrying both
bounds — an absent bound makes the numeric comparison false, not a
pass-through. -/
theorem filter_semantics :
    (∀ dv filters data (row : Obj),
      row ∈ applyFilters dv filters data ↔
        row ∈ data ∧ filters.all (fun f => evalFilter dv f row) = true) ∧
    (∀ dv (f : ColFilter) row, lookupObj row f.column = none →
      evalFilter dv f row = false) ∧
    (∀ dv (f : ColFilter) row cv, f.operation = .dateRange →
      lookupObj row f.column = some cv →
      (truthyOptCell (getFrom f.value) = false ∨
       truthyOptCell (getTo f.value) = false) →
      evalFilter dv f row = true) ∧
    (∀ dv (f : ColFilter) row, f.operation = .between →
      (∀ l, f.value = FVal.list l → l.get? 1 = none) →
      evalFilter dv f row = false) := by
  refine ⟨?_, ?_, ?_, ?_⟩
  · intro dv filters data row
    unfold applyFilters
    by_cases hd : data.isEmpty
    · rw [if_pos hd]
      rw [List.isEmpty_iff.mp hd]
      simp
    · rw [if_neg hd]
      by_cases hf : filters.isEmpty
      · rw [if_pos hf]
        rw [List.isEmpty_iff.mp hf]
        simp
      · rw [if_neg hf]
        exact List.mem_filter
  · intro dv f row h
    unfold evalFilter
    rw [h]
  · intro dv f row cv hop hlk hfalse
    unfold evalFilter
    rw [hlk, hop]
    have hcond : (!truthyOptCell (getFrom f.value) ||
        !truthyOptCell (getTo f.value)) = true := by
      rcases hfalse with h | h <;> simp [h]
    rw [hcond]
    simp
  · intro dv f row hop hval
    unfold evalFilter
    cases hlk : lookupObj row f.column with
    | none => rfl
    | some cv =>
      rw [hop]
      cases hv : f.value with
      | list l =>
        have h1 : l.get? 1 = none := hval l hv
        simp only []
        rw [h1]
        simp only [Option.none_bind]
        cases toNumberCell cv <;> simp [optLe, optGe]
      | cell c => rfl
      | range a b => rfl
      | undef => rfl

/-- A `between` filter with only a lower bound. -/
def betweenOpenFilter : ColFilter :=
  ⟨"A".toList, "number".toList, .between, .list [Cell.num 1]⟩

/-- C5 counterexample: a `between` filter with an absent upper bound
drops the row `A = "5"` instead of passing it through (the claim says
both `between` and `dateRange` pass through true on open ranges). -/
theorem between_open_range_counterexample :
    evalFilter dv0 betweenOpenFilter
        [("A".toList, Cell.str "5".toList)] = false ∧
    applyFilters dv0 [betweenOpenFilter]
        [[("A".toList, Cell.str "5".toList)]] = [] := by
  constructor
  · exact filter_semantics.2.2.2 dv0 betweenOpenFilter _ rfl
      (by intro l hl; cases hl; rfl)
  · have h := filter_semantics.2.2.2 dv0 betweenOpenFilter
      [("A".toList, Cell.str "5".toList)] rfl
      (by intro l hl; cases hl; rfl)
    unfold applyFilters
    rw [if_neg (by decide), if_neg (by decide)]
    simp only [List.filter_cons, List.filter_nil, List.all_cons,
      List.all_nil, Bool.and_true, h]
    simp

theorem filter_semantics_witness :
    evalFilter dv0
      ⟨"A".toList, "date".toList, .dateRange,
        FVal.range (some (Cell.str "2023-01-01".toList)) none⟩
      [("A".toList, Cell.str "x".toList)] = true :=
  filter_semantics.2.2.1 dv0 _ _ (Cell.str "x".toList) rfl (by decide)
    (Or.inr (by decide))

/-- C8: filter AND-composition is order-independent — for every table
and every pair of filters, `applyFilters [A,B]` admits exactly the rows
`applyFilters [B,A]` admits. -/
theorem filter_and_commutative :
    ∀ dv (A B : ColFilter) data,
      applyFilters dv [A, B] data = applyFilters dv [B, A] data := by
  intro dv A B data
  unfold applyFilters
  by_cases hd : data.isEmpty
  · rw [if_pos hd, if_pos hd]
  · rw [if_neg hd, if_neg hd]
    simp only [List.isEmpty_cons, Bool.false_eq_true, if_false]
    apply List.filter_congr
    intro row _
    simp only [List.all_cons, List.all_nil, Bool.and_true]
    exact Bool.and_comm _ _

/-! ### Preset loading (`PresetManager`, DataPreview.tsx)

`localStorage.getItem` and `JSON.parse` are platform services; the load
effect is modelled on their three possible outcomes: no stored entry,
a stored string that fails to parse (`JSON.parse` throws), or a parsed
value. A parsed preset record may be missing any field — the source
applies no validation to it. -/

/-- A stored preset record as parsed from JSON: every field may be
missing. -/
structure PresetRec where
  pid : Option (List Char)
  pname : Option (List Char)
  pdescription : Option (List Char)
  pdateCreated : Option (List Char)
deriving DecidableEq, Repr

/-- The `TransformationPreset` interface requires `id`, `name` and
`dateCreated`. -/
def presetWellFormed (p : PresetRec) : Prop :=
  p.pid ≠ none ∧ p.pname ≠ none ∧ p.pdateCreated ≠ none

/-- The three outcomes of reading and parsing the preset store. -/
inductive StoredPresets where
  | absent
  | unparseable
  | parsed (l : List PresetRec)

/-- The two seed presets written on first run (`dateCreated` is the
current time, passed in). -/
def samplePresets (now : List Char) : List PresetRec :=
  [⟨some "default-1".toList, some "Standard Format".toList,
    some "Basic data sanitization for insurance forms".toList, some now⟩,
   ⟨some "default-2".toList, some "Policy Report Format".toList,
    some "Format and standardize policy data".toList, some now⟩]

/-- The preset-loading effect of `PresetManager`: no stored entry seeds
the samples; a parse failure is caught and yields the empty list; a
parsed value is installed verbatim, with no per-preset validation. -/
def loadPresets (now : List Char) : StoredPresets → List PresetRec
  | .absent => samplePresets now
  | .unparseable => []
  | .parsed l => l

/-- A preset record with every field missing. -/
def malformedPreset : PresetRec := ⟨none, none, none, none⟩

/-- C9 (amended): corrupt-store recovery degrades to an empty preset
list instead of failing hard (the parse error is caught and logged); but
an individually malformed preset inside a parseable store is NOT skipped
— the parsed list is installed verbatim, with no validation. -/
theorem presets_load_recovery :
    (∀ now, loadPresets now .unparseable = []) ∧
    (∀ now l, loadPresets now (.parsed l) = l) ∧
    (∀ now, loadPresets now .absent = samplePresets now) :=
  ⟨fun _ => rfl, fun _ _ => rfl, fun _ => rfl⟩

/-- C9 counterexample: a malformed stored preset (all fields missing)
inside a parseable store is kept in the loaded list, not skipped. -/
theorem malformed_preset_not_skipped :
    loadPresets [] (.parsed [malformedPreset]) = [malformedPreset] ∧
    ¬ presetWellFormed malformedPreset ∧
    loadPresets [] (.parsed [malformedPreset]) ≠ [] := by
  refine ⟨rfl, ?_, by simp [loadPresets]⟩
  simp [presetWellFormed, malformedPreset]
